import Mathlib

/-!
Verification of the NAT-traversing relay transport of the reverse_ssh
repository.  Strings from the Go code are modelled as lists of byte
values (each a Nat below 256); Go byte arrays and slices likewise.
All definitions are translated from the Go sources in internal/nat
(token.go, key.go, service.go, listener.go, relay_conn.go,
derp_select.go, region_order.go) and the signal codec file.
-/

namespace ReverseSSH

/-! ## Byte-string helpers (Go strings package, restricted to ASCII) -/

/-- Whitespace test used by Go strings.TrimSpace, restricted to the ASCII
whitespace class (tab, LF, VT, FF, CR, space).  The codec alphabet and the
scheme are ASCII, so this restriction is faithful on all byte strings the
code produces or accepts. -/
def isSpaceByte (c : Nat) : Bool := c = 32 || (9 ≤ c && c ≤ 13)

/-- Go strings.TrimSpace on a byte string: drop whitespace from both ends. -/
def trimSpace (s : List Nat) : List Nat :=
  ((s.dropWhile isSpaceByte).reverse.dropWhile isSpaceByte).reverse

/-- Go strings.HasPrefix on byte strings. -/
def listStartsWith (pre s : List Nat) : Bool := s.take pre.length = pre

/-- Go strings.ContainsAny: does s contain any byte from chars? -/
def containsAnyOf (s chars : List Nat) : Bool := s.any (fun c => chars.contains c)

theorem dropWhile_eq_self_of_none {p : Nat → Bool} :
    ∀ {s : List Nat}, (∀ c ∈ s, p c = false) → s.dropWhile p = s := by
  intro s h
  cases s with
  | nil => rfl
  | cons a t =>
    rw [List.dropWhile_cons]
    simp [h a (List.mem_cons_self a t)]

theorem trimSpace_eq_self {s : List Nat} (h : ∀ c ∈ s, isSpaceByte c = false) :
    trimSpace s = s := by
  unfold trimSpace
  rw [dropWhile_eq_self_of_none h]
  rw [dropWhile_eq_self_of_none (by intro c hc; exact h c (List.mem_reverse.mp hc))]
  exact List.reverse_reverse s

theorem head_of_dropWhile_false {p : Nat → Bool} :
    ∀ {s : List Nat} {a : Nat} {t : List Nat}, List.dropWhile p s = a :: t → p a = false := by
  intro s
  induction s with
  | nil => intro a t hd; simp at hd
  | cons x xs ih =>
    intro a t hd
    rw [List.dropWhile_cons] at hd
    cases hx : p x with
    | true =>
      simp only [hx, if_true] at hd
      exact ih hd
    | false =>
      simp [hx] at hd
      obtain ⟨h1, h2⟩ := hd
      rw [← h1]
      exact hx

theorem dropWhile_idem (p : Nat → Bool) (s : List Nat) :
    (s.dropWhile p).dropWhile p = s.dropWhile p := by
  cases hd : s.dropWhile p with
  | nil => rfl
  | cons a t =>
    have hha := head_of_dropWhile_false hd
    simp [List.dropWhile_cons, hha]

theorem trimSpace_idem (s : List Nat) : trimSpace (trimSpace s) = trimSpace s := by
  have h1 : (trimSpace s).reverse.dropWhile isSpaceByte = (trimSpace s).reverse := by
    simp only [trimSpace, List.reverse_reverse]
    exact dropWhile_idem _ _
  have h2 : (trimSpace s).dropWhile isSpaceByte = trimSpace s := by
    cases hv : trimSpace s with
    | nil => rfl
    | cons a t =>
      have hpref : trimSpace s <+: s.dropWhile isSpaceByte := by
        have hsuf :=
          List.dropWhile_suffix (l := (s.dropWhile isSpaceByte).reverse) isSpaceByte
        have := hsuf.reverse
        simpa [trimSpace] using this
      obtain ⟨r, hr⟩ := hpref
      rw [hv] at hr
      cases hu : s.dropWhile isSpaceByte with
      | nil => rw [hu] at hr; simp at hr
      | cons b u =>
        rw [hu, List.cons_append] at hr
        -- the head of the left-trimmed list fails the whitespace test
        have hha := head_of_dropWhile_false hu
        have hab : a = b := by injection hr
        rw [← hab] at hha
        simp [List.dropWhile_cons, hha]
  show ((trimSpace s |>.dropWhile isSpaceByte).reverse.dropWhile isSpaceByte).reverse = _
  rw [h2, h1, List.reverse_reverse]

/-! ## Base64 URL-safe no-padding codec (Go encoding/base64 RawURLEncoding)

Faithful to the Go decoder: byte values outside the alphabet are rejected,
except carriage return and newline which are skipped anywhere in the input;
an input whose filtered length is 1 mod 4 is rejected; trailing bits of the
final partial quantum are ignored (Go non-strict mode). -/

/-- Alphabet of base64.URLEncoding: A-Z, a-z, 0-9, minus, underscore. -/
def base64URLAlphabet : List Nat :=
  (List.range 26).map (· + 65) ++ (List.range 26).map (· + 97) ++
    (List.range 10).map (· + 48) ++ [45, 95]

/-- Character for a sextet value (Go encode table lookup). -/
def b64Char (i : Nat) : Nat := base64URLAlphabet.getD i 0

/-- Sextet value for a character (Go decode table; none = invalid byte). -/
def b64Index (c : Nat) : Option Nat :=
  if 65 ≤ c ∧ c ≤ 90 then some (c - 65)
  else if 97 ≤ c ∧ c ≤ 122 then some (c - 97 + 26)
  else if 48 ≤ c ∧ c ≤ 57 then some (c - 48 + 52)
  else if c = 45 then some 62
  else if c = 95 then some 63
  else none

/-- Encoder core: emit 4 chars per 3-byte group, 2 or 3 chars for a final
partial group (no padding characters, as in RawURLEncoding). -/
def b64EncodeGroups : List Nat → List Nat
  | [] => []
  | [b0] => [b64Char (b0 / 4), b64Char (b0 % 4 * 16)]
  | [b0, b1] => [b64Char (b0 / 4), b64Char (b0 % 4 * 16 + b1 / 16), b64Char (b1 % 16 * 4)]
  | b0 :: b1 :: b2 :: rest =>
      b64Char (b0 / 4) :: b64Char (b0 % 4 * 16 + b1 / 16) ::
        b64Char (b1 % 16 * 4 + b2 / 64) :: b64Char (b2 % 64) :: b64EncodeGroups rest

/-- Decoder core over the already-filtered character list: 4 chars to 3
bytes, a final quantum of 2 or 3 chars to 1 or 2 bytes, length 1 mod 4
rejected, low bits of the final quantum discarded (Go non-strict mode). -/
def b64DecodeChars : List Nat → Option (List Nat)
  | [] => some []
  | [_] => none
  | [a, b] =>
      match b64Index a, b64Index b with
      | some x, some y => some [x * 4 + y / 16]
      | _, _ => none
  | [a, b, c] =>
      match b64Index a, b64Index b, b64Index c with
      | some x, some y, some z => some [x * 4 + y / 16, y % 16 * 16 + z / 4]
      | _, _, _ => none
  | a :: b :: c :: d :: rest =>
      match b64Index a, b64Index b, b64Index c, b64Index d, b64DecodeChars rest with
      | some x, some y, some z, some w, some bs =>
          some ((x * 4 + y / 16) :: (y % 16 * 16 + z / 4) :: (z % 4 * 64 + w) :: bs)
      | _, _, _, _, _ => none

/-- Is the byte skipped by the Go base64 decoder (carriage return, newline)? -/
def isCRLF (c : Nat) : Bool := c = 10 || c = 13

/-- Go base64.RawURLEncoding.EncodeToString on a byte list. -/
def base64RawURLEncode (bs : List Nat) : List Nat := b64EncodeGroups bs

/-- Go base64.RawURLEncoding.DecodeString on a byte list. -/
def base64RawURLDecode (s : List Nat) : Option (List Nat) :=
  b64DecodeChars (s.filter (fun c => !isCRLF c))

theorem b64Index_b64Char : ∀ i, i < 64 → b64Index (b64Char i) = some i := by decide

theorem b64Char_plain : ∀ i, i < 64 →
    (isCRLF (b64Char i) = false ∧ isSpaceByte (b64Char i) = false ∧
      b64Char i ≠ 47 ∧ b64Char i ≠ 63 ∧ b64Char i ≠ 35) := by decide

/-- Every character emitted by the encoder is b64Char of a sextet value. -/
theorem b64EncodeGroups_chars :
    ∀ bs : List Nat, (∀ b ∈ bs, b < 256) →
      ∀ c ∈ b64EncodeGroups bs, ∃ i, i < 64 ∧ c = b64Char i := by
  intro bs
  match bs with
  | [] => intro _ c hc; simp [b64EncodeGroups] at hc
  | [b0] =>
    intro h c hc
    have hb0 : b0 < 256 := h b0 (by simp)
    simp only [b64EncodeGroups, List.mem_cons, List.not_mem_nil, or_false] at hc
    rcases hc with h1 | h1 <;> exact ⟨_, by omega, h1⟩
  | [b0, b1] =>
    intro h c hc
    have hb0 : b0 < 256 := h b0 (by simp)
    have hb1 : b1 < 256 := h b1 (by simp)
    simp only [b64EncodeGroups, List.mem_cons, List.not_mem_nil, or_false] at hc
    rcases hc with h1 | h1 | h1 <;> exact ⟨_, by omega, h1⟩
  | b0 :: b1 :: b2 :: rest =>
    intro h c hc
    have hb0 : b0 < 256 := h b0 (by simp)
    have hb1 : b1 < 256 := h b1 (by simp)
    have hb2 : b2 < 256 := h b2 (by simp)
    have ih := b64EncodeGroups_chars rest (fun b hb => h b (by simp [hb]))
    simp only [b64EncodeGroups, List.mem_cons] at hc
    rcases hc with h1 | h1 | h1 | h1 | h1
    · exact ⟨_, by omega, h1⟩
    · exact ⟨_, by omega, h1⟩
    · exact ⟨_, by omega, h1⟩
    · exact ⟨_, by omega, h1⟩
    · exact ih c h1

/-- The encoder output contains no carriage return or newline, so the Go
decoder filter leaves it unchanged. -/
theorem b64EncodeGroups_filter (bs : List Nat) (h : ∀ b ∈ bs, b < 256) :
    (b64EncodeGroups bs).filter (fun c => !isCRLF c) = b64EncodeGroups bs := by
  rw [List.filter_eq_self]
  intro c hc
  obtain ⟨i, hi, rfl⟩ := b64EncodeGroups_chars bs h c hc
  simp [(b64Char_plain i hi).1]

/-- Decoding the encoder output recovers the bytes (base64 roundtrip core). -/
theorem b64DecodeChars_encode :
    ∀ bs : List Nat, (∀ b ∈ bs, b < 256) →
      b64DecodeChars (b64EncodeGroups bs) = some bs := by
  intro bs
  match bs with
  | [] => intro _; simp [b64EncodeGroups, b64DecodeChars]
  | [b0] =>
    intro h
    have hb0 : b0 < 256 := h b0 (by simp)
    have e0 : b64Index (b64Char (b0 / 4)) = some (b0 / 4) := b64Index_b64Char _ (by omega)
    have e1 : b64Index (b64Char (b0 % 4 * 16)) = some (b0 % 4 * 16) :=
      b64Index_b64Char _ (by omega)
    simp only [b64EncodeGroups, b64DecodeChars, e0, e1, Option.some.injEq, List.cons.injEq,
      and_true]
    omega
  | [b0, b1] =>
    intro h
    have hb0 : b0 < 256 := h b0 (by simp)
    have hb1 : b1 < 256 := h b1 (by simp)
    have e0 : b64Index (b64Char (b0 / 4)) = some (b0 / 4) := b64Index_b64Char _ (by omega)
    have e1 : b64Index (b64Char (b0 % 4 * 16 + b1 / 16)) = some (b0 % 4 * 16 + b1 / 16) :=
      b64Index_b64Char _ (by omega)
    have e2 : b64Index (b64Char (b1 % 16 * 4)) = some (b1 % 16 * 4) :=
      b64Index_b64Char _ (by omega)
    simp only [b64EncodeGroups, b64DecodeChars, e0, e1, e2, Option.some.injEq,
      List.cons.injEq, and_true]
    omega
  | b0 :: b1 :: b2 :: rest =>
    intro h
    have hb0 : b0 < 256 := h b0 (by simp)
    have hb1 : b1 < 256 := h b1 (by simp)
    have hb2 : b2 < 256 := h b2 (by simp)
    have ih := b64DecodeChars_encode rest (fun b hb => h b (by simp [hb]))
    have e0 : b64Index (b64Char (b0 / 4)) = some (b0 / 4) := b64Index_b64Char _ (by omega)
    have e1 : b64Index (b64Char (b0 % 4 * 16 + b1 / 16)) = some (b0 % 4 * 16 + b1 / 16) :=
      b64Index_b64Char _ (by omega)
    have e2 : b64Index (b64Char (b1 % 16 * 4 + b2 / 64)) = some (b1 % 16 * 4 + b2 / 64) :=
      b64Index_b64Char _ (by omega)
    have e3 : b64Index (b64Char (b2 % 64)) = some (b2 % 64) := b64Index_b64Char _ (by omega)
    simp only [b64EncodeGroups, b64DecodeChars, e0, e1, e2, e3, ih, Option.some.injEq,
      List.cons.injEq, and_true]
    refine ⟨?_, ?_, ?_⟩ <;> omega

/-- Go base64 RawURL roundtrip: decoding an encoding recovers the bytes. -/
theorem base64RawURL_roundtrip (bs : List Nat) (h : ∀ b ∈ bs, b < 256) :
    base64RawURLDecode (base64RawURLEncode bs) = some bs := by
  unfold base64RawURLDecode base64RawURLEncode
  rw [b64EncodeGroups_filter bs h]
  exact b64DecodeChars_encode bs h

/-! ## Destination token (internal/nat/token.go, ts scheme) -/

/-- Byte string of the destination scheme marker written before the token. -/
def destinationScheme : List Nat := [116, 115, 58, 47, 47]

def TokenVersionV1 : Nat := 1

/-- Token is the versioned TS destination payload baked into ts addresses
(Version, ServerDERPPublicKey of 32 bytes, PreferredRegion as uint16). -/
structure Token where
  Version : Nat
  ServerDERPPublicKey : List Nat
  PreferredRegion : Nat
  deriving DecidableEq, Repr

/-- Token.Validate: version must be 1 and the key must not be all zero. -/
def Token.Validate (t : Token) : Except String Unit :=
  if t.Version ≠ TokenVersionV1 then .error "invalid ts token: unsupported version"
  else if t.ServerDERPPublicKey = List.replicate 32 0 then
    .error "invalid ts token: missing derp server key"
  else .ok ()

/-- Token.Encode: validate, lay out version(1) then derp public key(32) then
big-endian region(2), and base64 RawURL encode. -/
def Token.Encode (t : Token) : Except String (List Nat) :=
  t.Validate.map (fun _ =>
    base64RawURLEncode
      (t.Version :: t.ServerDERPPublicKey ++
        [t.PreferredRegion / 256 % 256, t.PreferredRegion % 256]))

/-- DecodeToken: trim, base64 RawURL decode, require exactly 35 bytes, parse
version, key and big-endian region, then validate. -/
def DecodeToken (encoded : List Nat) : Except String Token :=
  match base64RawURLDecode (trimSpace encoded) with
  | none => .error "invalid ts token: decode failed"
  | some raw =>
      if raw.length ≠ 35 then .error "invalid ts token: payload length mismatch"
      else
        let regionBytes := raw.drop 33
        let t : Token :=
          { Version := raw.getD 0 0
            ServerDERPPublicKey := (raw.drop 1).take 32
            PreferredRegion := regionBytes.getD 0 0 * 256 + regionBytes.getD 1 0 }
        t.Validate.map (fun _ => t)

/-- ParseDestination: trim, require the ts scheme marker, trim the rest,
reject empty or non-opaque payloads, then decode the token. -/
def ParseDestination (destination : List Nat) : Except String Token :=
  let d := trimSpace destination
  if listStartsWith destinationScheme d = false then
    .error "invalid ts destination: expected scheme marker"
  else
    let tokenRaw := trimSpace (d.drop destinationScheme.length)
    if tokenRaw = [] then .error "invalid ts destination: missing token payload"
    else if containsAnyOf tokenRaw [47, 63, 35] then
      .error "invalid ts destination: token payload must be opaque"
    else DecodeToken tokenRaw

theorem listStartsWith_iff (pre s : List Nat) :
    listStartsWith pre s = true ↔ ∃ rest, s = pre ++ rest := by
  unfold listStartsWith
  rw [decide_eq_true_eq]
  constructor
  · intro h
    refine ⟨s.drop pre.length, ?_⟩
    conv_lhs => rw [← List.take_append_drop pre.length s]
    rw [h]
  · rintro ⟨rest, rfl⟩
    exact List.take_left' rfl

/-- The base64 encoder output contains no whitespace byte, so TrimSpace
leaves it unchanged. -/
theorem trimSpace_base64 (bs : List Nat) (h : ∀ b ∈ bs, b < 256) :
    trimSpace (base64RawURLEncode bs) = base64RawURLEncode bs := by
  apply trimSpace_eq_self
  intro c hc
  obtain ⟨i, hi, rfl⟩ := b64EncodeGroups_chars bs h c hc
  exact (b64Char_plain i hi).2.1

/-- C1: for every token t with Version = 1 and a non-zero 32-byte
ServerDERPPublicKey (and PreferredRegion in uint16 range, as its Go type
guarantees), Encode succeeds and DecodeToken of the encoding succeeds and
returns a token equal to t on every field (Version, ServerDERPPublicKey,
PreferredRegion). -/
theorem C1_token_roundtrip (t : Token) (hv : t.Version = 1)
    (hlen : t.ServerDERPPublicKey.length = 32)
    (hbytes : ∀ b ∈ t.ServerDERPPublicKey, b < 256)
    (hkey : t.ServerDERPPublicKey ≠ List.replicate 32 0)
    (hreg : t.PreferredRegion < 65536) :
    ∃ enc, t.Encode = .ok enc ∧ DecodeToken enc = .ok t := by
  have hval : t.Validate = .ok () := by
    unfold Token.Validate
    rw [if_neg (by rw [hv]; simp [TokenVersionV1]), if_neg hkey]
  set hi := t.PreferredRegion / 256 % 256 with hhi
  set lo := t.PreferredRegion % 256 with hlo
  set raw : List Nat := t.Version :: t.ServerDERPPublicKey ++ [hi, lo] with hraw
  have hrawbytes : ∀ b ∈ raw, b < 256 := by
    intro b hb
    rw [hraw] at hb
    rcases List.mem_cons.mp hb with hb | hb
    · subst hb; omega
    rcases List.mem_append.mp hb with hb | hb
    · exact hbytes b hb
    rcases List.mem_cons.mp hb with hb | hb
    · subst hb; omega
    rcases List.mem_cons.mp hb with hb | hb
    · subst hb; omega
    · simp at hb
  have hlen35 : raw.length = 35 := by
    rw [hraw]
    simp [hlen]
  have hdrop1 : raw.drop 1 = t.ServerDERPPublicKey ++ [hi, lo] := rfl
  have htake : (raw.drop 1).take 32 = t.ServerDERPPublicKey := by
    rw [hdrop1]
    exact List.take_left' hlen
  have hdrop33 : raw.drop 33 = [hi, lo] := by
    rw [hraw]
    show (t.ServerDERPPublicKey ++ [hi, lo]).drop 32 = [hi, lo]
    exact List.drop_left' hlen
  have hregion : (raw.drop 33).getD 0 0 * 256 + (raw.drop 33).getD 1 0 = t.PreferredRegion := by
    rw [hdrop33]
    show hi * 256 + lo = t.PreferredRegion
    omega
  have hver : raw.getD 0 0 = t.Version := rfl
  have ht : ({ Version := raw.getD 0 0
               ServerDERPPublicKey := (raw.drop 1).take 32
               PreferredRegion := (raw.drop 33).getD 0 0 * 256 + (raw.drop 33).getD 1 0 } :
      Token) = t := by
    rw [hver, htake, hregion]
  refine ⟨base64RawURLEncode raw, ?_, ?_⟩
  · unfold Token.Encode
    rw [hval]
    rfl
  · unfold DecodeToken
    rw [trimSpace_base64 raw hrawbytes, base64RawURL_roundtrip raw hrawbytes]
    simp only [hlen35, ne_eq, not_true_eq_false, if_false, ht, hval]
    rfl

/-- Concrete instantiation of C1 at a sample token. -/
theorem C1_token_roundtrip_witness :
    ∃ enc, (Token.Encode ⟨1, 7 :: List.replicate 31 0, 42⟩) = .ok enc ∧
      DecodeToken enc = .ok ⟨1, 7 :: List.replicate 31 0, 42⟩ :=
  C1_token_roundtrip ⟨1, 7 :: List.replicate 31 0, 42⟩ rfl (by decide) (by decide)
    (by decide) (by decide)

theorem Token.Validate_ok_iff (t : Token) :
    (∃ u, t.Validate = .ok u) ↔
      (t.Version = 1 ∧ t.ServerDERPPublicKey ≠ List.replicate 32 0) := by
  unfold Token.Validate
  by_cases h1 : t.Version = 1
  · rw [if_neg (by simp [TokenVersionV1, h1])]
    by_cases h2 : t.ServerDERPPublicKey = List.replicate 32 0
    · rw [if_pos h2]
      constructor
      · rintro ⟨u, hu⟩
        exact absurd hu (by simp)
      · rintro ⟨-, hne⟩
        exact absurd h2 hne
    · rw [if_neg h2]
      exact ⟨fun _ => ⟨h1, h2⟩, fun _ => ⟨(), rfl⟩⟩
  · rw [if_pos (by simp [TokenVersionV1]; exact h1)]
    constructor
    · rintro ⟨u, hu⟩
      exact absurd hu (by simp)
    · rintro ⟨hh, -⟩
      exact absurd hh h1

theorem exists_ok_map {v : Except String Unit} {f : Unit → Token} :
    (∃ t, v.map f = .ok t) ↔ ∃ u, v = .ok u := by
  cases v <;> simp [Except.map]

/-- DecodeToken succeeds exactly when the trimmed input base64-decodes (Go
RawURL semantics) to 35 bytes with version byte 1 and a non-zero key. -/
theorem DecodeToken_ok_iff (enc : List Nat) :
    (∃ t, DecodeToken enc = .ok t) ↔
      ∃ raw, base64RawURLDecode (trimSpace enc) = some raw ∧ raw.length = 35 ∧
        raw.getD 0 0 = 1 ∧ (raw.drop 1).take 32 ≠ List.replicate 32 0 := by
  unfold DecodeToken
  cases hdec : base64RawURLDecode (trimSpace enc) with
  | none => simp
  | some raw =>
    simp only [Option.some.injEq, exists_eq_left']
    by_cases hl : raw.length = 35
    · rw [if_neg (by simp [hl])]
      simp only [exists_ok_map, Token.Validate_ok_iff]
      simp [hl]
    · rw [if_pos hl]
      simp [hl]

/-- C2 (amended): ParseDestination succeeds exactly when the trimmed input
is the ts scheme marker followed by a payload which, after trimming its own
surrounding whitespace, is non-empty, contains no slash, question mark or
hash byte, and base64url-no-padding-decodes (Go decoder semantics: CR and
LF bytes are skipped) to exactly 35 bytes with first byte 1 and the
following 32 bytes not all zero; in every other case it returns an error. -/
theorem C2_parse_destination (s : List Nat) :
    (∃ t, ParseDestination s = .ok t) ↔
      ∃ rest, trimSpace s = destinationScheme ++ rest ∧
        trimSpace rest ≠ [] ∧
        containsAnyOf (trimSpace rest) [47, 63, 35] = false ∧
        ∃ raw, base64RawURLDecode (trimSpace rest) = some raw ∧ raw.length = 35 ∧
          raw.getD 0 0 = 1 ∧ (raw.drop 1).take 32 ≠ List.replicate 32 0 := by
  cases hpre : listStartsWith destinationScheme (trimSpace s) with
  | false =>
    have hPD : ParseDestination s = .error "invalid ts destination: expected scheme marker" := by
      unfold ParseDestination
      rw [if_pos hpre]
    rw [hPD]
    constructor
    · rintro ⟨t, ht⟩
      exact absurd ht (by simp)
    · rintro ⟨rest, hrest, -⟩
      have h2 : listStartsWith destinationScheme (trimSpace s) = true :=
        (listStartsWith_iff _ _).mpr ⟨rest, hrest⟩
      rw [hpre] at h2
      exact absurd h2 (by simp)
  | true =>
    obtain ⟨rest, hrest⟩ := (listStartsWith_iff _ _).mp hpre
    have hdrop : (trimSpace s).drop destinationScheme.length = rest := by
      rw [hrest]
      exact List.drop_left _ _
    have hresteq : ∀ rest2, trimSpace s = destinationScheme ++ rest2 → rest2 = rest := by
      intro rest2 h2
      rw [hrest] at h2
      exact (List.append_cancel_left h2).symm
    have c1 : ¬(listStartsWith destinationScheme (trimSpace s) = false) := by
      rw [hpre]
      simp
    by_cases hempty : trimSpace rest = []
    · have hPD : ParseDestination s = .error "invalid ts destination: missing token payload" := by
        unfold ParseDestination
        rw [if_neg c1, hdrop, if_pos hempty]
      rw [hPD]
      constructor
      · rintro ⟨t, ht⟩
        exact absurd ht (by simp)
      · rintro ⟨rest2, hrest2, hne, -⟩
        rw [hresteq rest2 hrest2] at hne
        exact absurd hempty hne
    · by_cases hcont : containsAnyOf (trimSpace rest) [47, 63, 35] = true
      · have hPD : ParseDestination s =
            .error "invalid ts destination: token payload must be opaque" := by
          unfold ParseDestination
          rw [if_neg c1, hdrop, if_neg hempty, if_pos hcont]
        rw [hPD]
        constructor
        · rintro ⟨t, ht⟩
          exact absurd ht (by simp)
        · rintro ⟨rest2, hrest2, -, hop, -⟩
          rw [hresteq rest2 hrest2] at hop
          rw [hcont] at hop
          exact absurd hop (by simp)
      · have hcont' : containsAnyOf (trimSpace rest) [47, 63, 35] = false := by
          cases hc : containsAnyOf (trimSpace rest) [47, 63, 35] with
          | false => rfl
          | true => exact absurd hc hcont
        have hPD : ParseDestination s = DecodeToken (trimSpace rest) := by
          unfold ParseDestination
          rw [if_neg c1, hdrop, if_neg hempty, if_neg hcont]
        rw [hPD]
        constructor
        · intro hok
          obtain ⟨raw, hraw⟩ := (DecodeToken_ok_iff (trimSpace rest)).mp hok
          rw [trimSpace_idem rest] at hraw
          exact ⟨rest, hrest, hempty, hcont', raw, hraw⟩
        · rintro ⟨rest2, hrest2, -, -, raw, hraw⟩
          rw [hresteq rest2 hrest2] at hraw
          apply (DecodeToken_ok_iff (trimSpace rest)).mpr
          rw [trimSpace_idem rest]
          exact ⟨raw, hraw⟩

/-- Concrete instantiation of the C2 characterization: a well-formed
destination string parses successfully. -/
theorem C2_parse_destination_witness :
    ∃ t, ParseDestination
        (destinationScheme ++
          base64RawURLEncode (1 :: (7 :: List.replicate 31 0) ++ [0, 42])) = .ok t := by
  apply (C2_parse_destination _).mpr
  refine ⟨base64RawURLEncode (1 :: (7 :: List.replicate 31 0) ++ [0, 42]), ?_, ?_, ?_, ?_⟩
  · rw [trimSpace_eq_self (by decide)]
  · rw [trimSpace_eq_self (by decide)]
    decide
  · rw [trimSpace_eq_self (by decide)]
    decide
  · rw [trimSpace_eq_self (by decide)]
    exact ⟨_, base64RawURL_roundtrip _ (by decide), by decide, by decide, by decide⟩

/-- C2 counterexample to the claim as stated: with a single space between
the scheme marker and a well-formed payload, ParseDestination succeeds
although the payload that follows the scheme marker in the trimmed input
does not base64-decode (the space byte is not a base64 character), because
the code trims the payload again before checking it. -/
theorem C2_claim_counterexample :
    (∃ t, ParseDestination
        (destinationScheme ++ 32 ::
          base64RawURLEncode (1 :: (7 :: List.replicate 31 0) ++ [0, 42])) = .ok t) ∧
      base64RawURLDecode
        ((trimSpace (destinationScheme ++ 32 ::
          base64RawURLEncode (1 :: (7 :: List.replicate 31 0) ++ [0, 42]))).drop
            destinationScheme.length) = none := by
  constructor
  · exact ⟨⟨1, 7 :: List.replicate 31 0, 42⟩, by rfl⟩
  · decide

/-! ## DERP identity derivation (internal/nat/key.go)

The HKDF-SHA256 stream and curve25519.ScalarBaseMult are deterministic
library primitives; they enter the embedding as explicit function
parameters (hkdfSha256 takes the secret, the salt and the info string and
stands for the first 32 bytes read from the HKDF stream). -/

/-- Byte string of the fixed derivation context used by key.go. -/
def derpKeyDerivationContext : List Nat :=
  [114, 101, 118, 101, 114, 115, 101, 95, 115, 115, 104, 47, 110, 97, 116, 47,
   118, 49, 47, 100, 101, 114, 112, 95, 105, 100, 101, 110, 116, 105, 116, 121]

/-- clampCurve25519Private: on a 32-byte scalar clear the low three bits of
byte 0, clear the high bit of byte 31 and set its 0x40 bit; other lengths
are returned unchanged (the Go code returns early). -/
def clampCurve25519Private (k : List Nat) : List Nat :=
  if k.length ≠ 32 then k
  else
    let k0 := k.set 0 (k.getD 0 0 &&& 248)
    k0.set 31 (k0.getD 31 0 &&& 127 ||| 64)

/-- DeriveDERPIdentity: reject an empty host key, read 32 bytes of
HKDF-SHA256 keyed by the host key with empty salt and the fixed context,
clamp them, and return the clamped scalar with its scalar-base-mult. -/
def DeriveDERPIdentity (hkdfSha256 : List Nat → List Nat → List Nat → List Nat)
    (scalarBaseMult : List Nat → List Nat) (hostPrivateKey : List Nat) :
    Except String (List Nat × List Nat) :=
  if hostPrivateKey.length = 0 then
    .error "host private key bytes cannot be empty"
  else
    let seed := hkdfSha256 hostPrivateKey [] derpKeyDerivationContext
    let priv := clampCurve25519Private seed
    .ok (priv, scalarBaseMult priv)

set_option maxRecDepth 8192 in
theorem clamp_byte0 : ∀ x, x < 256 → (x &&& 248) % 8 = 0 := by decide

set_option maxRecDepth 8192 in
theorem clamp_byte31 : ∀ x, x < 256 →
    ((x &&& 127 ||| 64) < 128 ∧ (x &&& 127 ||| 64) / 64 = 1) := by decide

/-- C3: for every non-empty host identity, DeriveDERPIdentity succeeds and
(being a pure function of the identity bytes) is deterministic; the private
scalar is the clamped 32-byte HKDF-SHA256 output over the identity with the
fixed context and empty salt, its byte 0 has the low three bits cleared,
its byte 31 has the high bit cleared and the 0x40 bit set ("bit 30" of the
spec), and the public key is the scalar-base-mult of the clamped scalar;
for the empty identity it returns an error. -/
theorem C3_derive_derp_identity
    (hkdfSha256 : List Nat → List Nat → List Nat → List Nat)
    (scalarBaseMult : List Nat → List Nat) (hostPrivateKey : List Nat)
    (hne : hostPrivateKey ≠ [])
    (hlen : (hkdfSha256 hostPrivateKey [] derpKeyDerivationContext).length = 32)
    (hbytes : ∀ b ∈ hkdfSha256 hostPrivateKey [] derpKeyDerivationContext, b < 256) :
    (∃ priv pub,
      DeriveDERPIdentity hkdfSha256 scalarBaseMult hostPrivateKey = .ok (priv, pub) ∧
      priv = clampCurve25519Private (hkdfSha256 hostPrivateKey [] derpKeyDerivationContext) ∧
      pub = scalarBaseMult priv ∧
      priv.length = 32 ∧
      priv.getD 0 0 % 8 = 0 ∧ priv.getD 31 0 < 128 ∧ priv.getD 31 0 / 64 = 1) ∧
    DeriveDERPIdentity hkdfSha256 scalarBaseMult [] =
      .error "host private key bytes cannot be empty" := by
  constructor
  · set seed := hkdfSha256 hostPrivateKey [] derpKeyDerivationContext with hseed
    set priv := clampCurve25519Private seed with hpriv
    refine ⟨priv, scalarBaseMult priv, ?_, rfl, rfl, ?_, ?_, ?_, ?_⟩
    · unfold DeriveDERPIdentity
      rw [if_neg (by simpa [List.length_eq_zero] using hne)]
    · rw [hpriv]
      unfold clampCurve25519Private
      rw [if_neg (by simp [hlen])]
      simp [hlen]
    · have h0 : priv.getD 0 0 = seed.getD 0 0 &&& 248 := by
        rw [hpriv]
        unfold clampCurve25519Private
        rw [if_neg (by simp [hlen])]
        simp only [List.getD_eq_getElem?_getD]
        rw [List.getElem?_set_ne (by omega)]
        rw [List.getElem?_set_self (by simp [hlen])]
        rfl
      rw [h0]
      apply clamp_byte0
      have : seed.getD 0 0 ∈ seed ∨ seed.getD 0 0 = 0 := by
        rcases Nat.lt_or_ge 0 seed.length with hl | hl
        · left
          rw [List.getD_eq_getElem?_getD, List.getElem?_eq_getElem hl]
          exact List.getElem_mem hl
        · right
          rw [List.getD_eq_getElem?_getD, List.getElem?_eq_none (by omega)]
          rfl
      rcases this with hmem | hzero
      · exact hbytes _ hmem
      · omega
    all_goals {
      have h31 : priv.getD 31 0 = seed.getD 31 0 &&& 127 ||| 64 := by
        rw [hpriv]
        unfold clampCurve25519Private
        rw [if_neg (by simp [hlen])]
        simp only [List.getD_eq_getElem?_getD]
        rw [List.getElem?_set_self (by simp [hlen])]
        rw [List.getElem?_set_ne (by omega)]
        rfl
      have hb : seed.getD 31 0 < 256 := by
        have : seed.getD 31 0 ∈ seed ∨ seed.getD 31 0 = 0 := by
          rcases Nat.lt_or_ge 31 seed.length with hl | hl
          · left
            rw [List.getD_eq_getElem?_getD, List.getElem?_eq_getElem hl]
            exact List.getElem_mem hl
          · right
            rw [List.getD_eq_getElem?_getD, List.getElem?_eq_none (by omega)]
            rfl
        rcases this with hmem | hzero
        · exact hbytes _ hmem
        · omega
      rw [h31]
      first
        | exact (clamp_byte31 _ hb).1
        | exact (clamp_byte31 _ hb).2
    }
  · rfl

/-- Concrete instantiation of C3 with a model HKDF returning a recognisable
32-byte stream. -/
theorem C3_derive_derp_identity_witness :
    (∃ priv pub,
      DeriveDERPIdentity (fun _ _ _ => List.replicate 32 9) (fun k => k)
          [1, 2, 3] = .ok (priv, pub) ∧
      priv = clampCurve25519Private
        ((fun _ _ _ => List.replicate 32 9) ([1, 2, 3] : List Nat) ([] : List Nat)
          derpKeyDerivationContext) ∧
      pub = (fun k : List Nat => k) priv ∧
      priv.length = 32 ∧
      priv.getD 0 0 % 8 = 0 ∧ priv.getD 31 0 < 128 ∧ priv.getD 31 0 / 64 = 1) ∧
    DeriveDERPIdentity (fun _ _ _ => List.replicate 32 9) (fun k => k) [] =
      .error "host private key bytes cannot be empty" :=
  C3_derive_derp_identity (fun _ _ _ => List.replicate 32 9) (fun k => k) [1, 2, 3]
    (by decide) (by decide) (by decide)

/-! ## Signal codec (signal message file, NaCl box variant)

The NaCl box primitives (box.Seal, box.Open) are deterministic library
functions of the key pair; they enter the embedding as function parameters
taking the 24-byte nonce and the plaintext or ciphertext.  The sender keys
(aPriv, bPub) are folded into boxSeal and the receiver keys (bPriv, aPub)
into boxOpen; the NaCl contract for a matched key pair is stated as a
hypothesis where a claim needs it. -/

def signalDialInit : Nat := 1
def signalDialAck : Nat := 2
def signalData : Nat := 3
def signalClose : Nat := 4

/-- Signal message record.  The Go field Type is a Lean keyword, so the
embedding calls it Typ. -/
structure signalMessage where
  Typ : Nat
  SessionID : List Nat
  Payload : List Nat
  deriving DecidableEq, Repr

/-- Little-endian 8-byte layout of a uint64 counter (exact for every Nat,
matching Go wrap-around semantics). -/
def u64le (v : Nat) : List Nat :=
  [v % 256, v / 256 % 256, v / 65536 % 256, v / 16777216 % 256,
   v / 4294967296 % 256, v / 1099511627776 % 256, v / 281474976710656 % 256,
   v / 72057594037927936 % 256]

/-- Zero padding length aligning 2 + innerLen to a 16-byte boundary. -/
def signalInnerPad (innerLen : Nat) : Nat :=
  let p := 16 - ((innerLen + 2) % 16)
  if p = 16 then 0 else p

/-- The padded inner plaintext: u16le inner length, type, session id,
payload, zero padding. -/
def signalInnerPlaintext (message : signalMessage) : List Nat :=
  let innerLen := 1 + 16 + message.Payload.length
  [innerLen % 256, innerLen / 256 % 256] ++
    message.Typ :: message.SessionID ++ message.Payload ++
      List.replicate (signalInnerPad innerLen) 0

/-- encodeSignalMessage: build the padded inner plaintext, seal it with the
nonce made of the 8-byte counter and 16 zero bytes, and frame it as a fake
WireGuard transport-data packet: 04 00 00 00, first 4 session id bytes,
counter, ciphertext. -/
def encodeSignalMessage (boxSeal : List Nat → List Nat → List Nat) (counter : Nat)
    (message : signalMessage) : List Nat :=
  let inner := signalInnerPlaintext message
  let counterBuf := u64le counter
  let nonce := counterBuf ++ List.replicate 16 0
  let encrypted := boxSeal nonce inner
  [4, 0, 0, 0] ++ message.SessionID.take 4 ++ counterBuf ++ encrypted

/-- u16le read of the first two plaintext bytes (the inner length field). -/
def signalInnerLen (inner : List Nat) : Nat :=
  inner.getD 0 0 + inner.getD 1 0 * 256

/-- decodeSignalMessage: reject inputs below 51 bytes or without the
04 00 00 00 marker, open the NaCl box over bytes 16.. with the nonce
raw[8:16] padded by 16 zero bytes, check the inner length field and return
type, session id and payload parsed from the plaintext. -/
def decodeSignalMessage (boxOpen : List Nat → List Nat → Option (List Nat))
    (raw : List Nat) : Except String signalMessage :=
  if raw.length = 0 then .error "empty signal message"
  else if raw.length < 51 then .error "signal message too short"
  else if raw.getD 0 0 ≠ 4 ∨ raw.getD 1 0 ≠ 0 ∨ raw.getD 2 0 ≠ 0 ∨ raw.getD 3 0 ≠ 0 then
    .error "invalid signal message type"
  else
    let nonce := (raw.drop 8).take 8 ++ List.replicate 16 0
    match boxOpen nonce (raw.drop 16) with
    | none => .error "signal message decryption failed"
    | some inner =>
        if inner.length < 19 then .error "signal inner message too short"
        else if signalInnerLen inner < 17 ∨ 2 + signalInnerLen inner > inner.length then
          .error "invalid signal inner length"
        else
          let payloadRaw := (inner.drop 2).take (signalInnerLen inner)
          .ok { Typ := payloadRaw.getD 0 0
                SessionID := (payloadRaw.drop 1).take 16
                Payload := payloadRaw.drop 17 }

/-- C4: decodeSignalMessage fails exactly when the input is shorter than 51
bytes, or does not start with 04 00 00 00, or the box fails to open with
nonce raw[8:16] padded by zeros, or the u16le inner length of the opened
plaintext is below 17 or extends past the plaintext; otherwise it returns
the type, session id and payload parsed from the plaintext.  The hypothesis
is the NaCl contract that an opened plaintext is 16 bytes shorter than the
ciphertext (box overhead), which makes the inner 19-byte check of the code
unreachable on inputs of at least 51 bytes. -/
theorem C4_decode_signal_errors (boxOpen : List Nat → List Nat → Option (List Nat))
    (raw : List Nat)
    (hopen_len : ∀ n ct pt, boxOpen n ct = some pt → pt.length + 16 = ct.length) :
    ((∃ m, decodeSignalMessage boxOpen raw = .ok m) ↔
      (51 ≤ raw.length ∧
       raw.getD 0 0 = 4 ∧ raw.getD 1 0 = 0 ∧ raw.getD 2 0 = 0 ∧ raw.getD 3 0 = 0 ∧
       ∃ inner,
         boxOpen ((raw.drop 8).take 8 ++ List.replicate 16 0) (raw.drop 16) = some inner ∧
         17 ≤ signalInnerLen inner ∧ 2 + signalInnerLen inner ≤ inner.length)) ∧
    (∀ inner m,
      boxOpen ((raw.drop 8).take 8 ++ List.replicate 16 0) (raw.drop 16) = some inner →
      decodeSignalMessage boxOpen raw = .ok m →
      m = ⟨((inner.drop 2).take (signalInnerLen inner)).getD 0 0,
           (((inner.drop 2).take (signalInnerLen inner)).drop 1).take 16,
           ((inner.drop 2).take (signalInnerLen inner)).drop 17⟩) := by
  by_cases h51 : raw.length < 51
  · have hPD : ∃ e, decodeSignalMessage boxOpen raw = .error e := by
      unfold decodeSignalMessage
      by_cases h0 : raw.length = 0
      · rw [if_pos h0]
        exact ⟨_, rfl⟩
      · rw [if_neg h0, if_pos h51]
        exact ⟨_, rfl⟩
    obtain ⟨e, hPD⟩ := hPD
    constructor
    · rw [hPD]
      constructor
      · rintro ⟨m, hm⟩
        exact absurd hm (by simp)
      · rintro ⟨hge, -⟩
        omega
    · intro inner m _ hm
      rw [hPD] at hm
      exact absurd hm (by simp)
  · have h0 : ¬(raw.length = 0) := by omega
    by_cases hdr : raw.getD 0 0 ≠ 4 ∨ raw.getD 1 0 ≠ 0 ∨ raw.getD 2 0 ≠ 0 ∨ raw.getD 3 0 ≠ 0
    · have hPD : decodeSignalMessage boxOpen raw = .error "invalid signal message type" := by
        unfold decodeSignalMessage
        rw [if_neg h0, if_neg h51, if_pos hdr]
      rw [hPD]
      constructor
      · constructor
        · rintro ⟨m, hm⟩
          exact absurd hm (by simp)
        · rintro ⟨-, h4, ha, hb, hc, -⟩
          rcases hdr with h | h | h | h <;> exact absurd (by assumption) h
      · intro inner m _ hm
        exact absurd hm (by simp)
    · cases hopen : boxOpen ((raw.drop 8).take 8 ++ List.replicate 16 0) (raw.drop 16) with
      | none =>
        have hPD : decodeSignalMessage boxOpen raw =
            .error "signal message decryption failed" := by
          unfold decodeSignalMessage
          rw [if_neg h0, if_neg h51, if_neg hdr]
          simp only [hopen]
        rw [hPD]
        constructor
        · constructor
          · rintro ⟨m, hm⟩
            exact absurd hm (by simp)
          · rintro ⟨-, -, -, -, -, inner, hinner, -⟩
            exact absurd hinner (by simp)
        · intro inner m hinner hm
          exact absurd hm (by simp)
      | some inner =>
        have hinlen : inner.length + 16 = raw.length - 16 := by
          have := hopen_len _ _ _ hopen
          simpa using this
        have h19 : ¬(inner.length < 19) := by omega
        push_neg at hdr
        obtain ⟨h4, ha, hb, hc⟩ := hdr
        by_cases hil : signalInnerLen inner < 17 ∨ 2 + signalInnerLen inner > inner.length
        · have hPD : decodeSignalMessage boxOpen raw =
              .error "invalid signal inner length" := by
            unfold decodeSignalMessage
            rw [if_neg h0, if_neg h51,
              if_neg (by push_neg; exact ⟨h4, ha, hb, hc⟩)]
            simp only [hopen]
            rw [if_neg h19, if_pos hil]
          rw [hPD]
          constructor
          · constructor
            · rintro ⟨m, hm⟩
              exact absurd hm (by simp)
            · rintro ⟨-, -, -, -, -, inner2, hinner2, hi17, hilen⟩
              obtain rfl : inner2 = inner := by
                injection hinner2 with h
                exact h.symm
              omega
          · intro inner2 m _ hm
            exact absurd hm (by simp)
        · have hPD : decodeSignalMessage boxOpen raw =
              .ok ⟨((inner.drop 2).take (signalInnerLen inner)).getD 0 0,
                   (((inner.drop 2).take (signalInnerLen inner)).drop 1).take 16,
                   ((inner.drop 2).take (signalInnerLen inner)).drop 17⟩ := by
            unfold decodeSignalMessage
            rw [if_neg h0, if_neg h51,
              if_neg (by push_neg; exact ⟨h4, ha, hb, hc⟩)]
            simp only [hopen]
            rw [if_neg h19, if_neg hil]
          rw [hPD]
          constructor
          · constructor
            · intro _
              push_neg at hil
              exact ⟨by omega, h4, ha, hb, hc, inner, rfl, hil.1, by omega⟩
            · intro _
              exact ⟨_, rfl⟩
          · intro inner2 m hinner2 hm
            obtain rfl : inner2 = inner := by
              injection hinner2 with h
              exact h.symm
            injection hm with hm
            exact hm.symm

/-- Model NaCl box pair used to instantiate the codec theorems: seal adds a
16-byte tag of zeros, open checks the length and strips it.  It satisfies
the two contract hypotheses (roundtrip and 16-byte overhead). -/
def modelBoxSeal (_n pt : List Nat) : List Nat := List.replicate 16 0 ++ pt

def modelBoxOpen (_n ct : List Nat) : Option (List Nat) :=
  if 16 ≤ ct.length then some (ct.drop 16) else none

theorem modelBoxOpen_len : ∀ n ct pt, modelBoxOpen n ct = some pt →
    pt.length + 16 = ct.length := by
  intro n ct pt h
  unfold modelBoxOpen at h
  by_cases hc : 16 ≤ ct.length
  · rw [if_pos hc] at h
    injection h with h
    subst h
    simp
    omega
  · rw [if_neg hc] at h
    exact absurd h (by simp)

/-- Decoding a well-shaped frame whose box opens to a well-formed plaintext
returns the parsed fields. -/
theorem decode_frame (boxOpen : List Nat → List Nat → Option (List Nat))
    (sid4 cb enc inner : List Nat)
    (hsid4 : sid4.length = 4) (hcb : cb.length = 8)
    (hopen : boxOpen (cb ++ List.replicate 16 0) enc = some inner)
    (henclen : enc.length = inner.length + 16)
    (hinner19 : 19 ≤ inner.length)
    (hil17 : 17 ≤ signalInnerLen inner)
    (hil : 2 + signalInnerLen inner ≤ inner.length) :
    decodeSignalMessage boxOpen ([4, 0, 0, 0] ++ sid4 ++ cb ++ enc) =
      .ok ⟨((inner.drop 2).take (signalInnerLen inner)).getD 0 0,
           (((inner.drop 2).take (signalInnerLen inner)).drop 1).take 16,
           ((inner.drop 2).take (signalInnerLen inner)).drop 17⟩ := by
  set raw : List Nat := [4, 0, 0, 0] ++ sid4 ++ cb ++ enc with hraw
  have hrawlen : raw.length = inner.length + 32 := by
    rw [hraw]
    simp [hsid4, hcb, henclen]
    omega
  have hdrop8 : raw.drop 8 = cb ++ enc := by
    rw [hraw]
    rw [show [4, 0, 0, 0] ++ sid4 ++ cb ++ enc = ([4, 0, 0, 0] ++ sid4) ++ (cb ++ enc) by
      simp [List.append_assoc]]
    exact List.drop_left' (by simp [hsid4])
  have hdrop16 : raw.drop 16 = enc := by
    rw [hraw]
    rw [show [4, 0, 0, 0] ++ sid4 ++ cb ++ enc = (([4, 0, 0, 0] ++ sid4) ++ cb) ++ enc by
      simp [List.append_assoc]]
    exact List.drop_left' (by simp [hsid4, hcb])
  have hnonce : (raw.drop 8).take 8 ++ List.replicate 16 0 = cb ++ List.replicate 16 0 := by
    rw [hdrop8, List.take_left' hcb]
  have hd : raw.getD 0 0 = 4 ∧ raw.getD 1 0 = 0 ∧ raw.getD 2 0 = 0 ∧ raw.getD 3 0 = 0 := by
    rw [hraw]
    simp [List.getD]
  unfold decodeSignalMessage
  rw [if_neg (by omega), if_neg (by omega), if_neg (by push_neg; exact hd)]
  rw [hnonce, hdrop16]
  simp only [hopen]
  rw [if_neg (by omega), if_neg (by omega)]

/-- Concrete instantiation of C4 at a well-formed 64-byte frame. -/
theorem C4_decode_signal_errors_witness :
    (∃ m, decodeSignalMessage modelBoxOpen
        ([4, 0, 0, 0] ++ List.replicate 12 0 ++ List.replicate 16 0 ++
          ([17, 0, 1] ++ List.replicate 29 0)) = .ok m) := by
  apply ((C4_decode_signal_errors modelBoxOpen _ modelBoxOpen_len).1).mpr
  refine ⟨by decide, by decide, by decide, by decide, by decide,
    [17, 0, 1] ++ List.replicate 29 0, by decide, by decide, by decide⟩

theorem signalInnerPad_lt (innerLen : Nat) : signalInnerPad innerLen < 16 := by
  unfold signalInnerPad
  have h := Nat.mod_lt (innerLen + 2) (show 0 < 16 by omega)
  by_cases hp : 16 - ((innerLen + 2) % 16) = 16
  · rw [if_pos hp]
    omega
  · rw [if_neg hp]
    omega

theorem signalInnerPlaintext_length (m : signalMessage) (hsid : m.SessionID.length = 16) :
    (signalInnerPlaintext m).length =
      19 + m.Payload.length + signalInnerPad (1 + 16 + m.Payload.length) := by
  unfold signalInnerPlaintext
  simp [hsid]
  omega

theorem signalInnerLen_plaintext (m : signalMessage) (hpay : m.Payload.length ≤ 65518) :
    signalInnerLen (signalInnerPlaintext m) = 1 + 16 + m.Payload.length := by
  unfold signalInnerLen signalInnerPlaintext
  simp [List.getD]
  omega

/-- C10: for every signal message with a 16-byte session id and a payload
of at most 65518 bytes (so the u16le inner length does not overflow), and
every matched NaCl box pair (the sender seals to the receiver who opens,
stated as the box roundtrip and 16-byte-overhead contract), decoding an
encoding returns the message with equal Type, SessionID and Payload: the
zero padding added by the encoder is stripped by the decoder. -/
theorem C10_signal_roundtrip (boxSeal : List Nat → List Nat → List Nat)
    (boxOpen : List Nat → List Nat → Option (List Nat)) (counter : Nat)
    (m : signalMessage)
    (hsid : m.SessionID.length = 16) (hpay : m.Payload.length ≤ 65518)
    (hround : ∀ n pt, boxOpen n (boxSeal n pt) = some pt)
    (hslen : ∀ n pt, (boxSeal n pt).length = pt.length + 16) :
    decodeSignalMessage boxOpen (encodeSignalMessage boxSeal counter m) = .ok m := by
  have hE : encodeSignalMessage boxSeal counter m =
      [4, 0, 0, 0] ++ m.SessionID.take 4 ++ u64le counter ++
        boxSeal (u64le counter ++ List.replicate 16 0) (signalInnerPlaintext m) := rfl
  set inner := signalInnerPlaintext m with hinner
  have hlen := signalInnerPlaintext_length m hsid
  have hsil := signalInnerLen_plaintext m hpay
  rw [← hinner] at hlen hsil
  have hpadlt := signalInnerPad_lt (1 + 16 + m.Payload.length)
  have happly := decode_frame boxOpen (m.SessionID.take 4) (u64le counter)
    (boxSeal (u64le counter ++ List.replicate 16 0) inner) inner
    (by simp [hsid]) (by simp [u64le]) (hround _ _) (hslen _ _)
    (by omega) (by omega) (by omega)
  rw [hE, happly]
  have hdrop2 : inner.drop 2 =
      (m.Typ :: (m.SessionID ++ m.Payload)) ++
        List.replicate (signalInnerPad (1 + 16 + m.Payload.length)) 0 := by
    rw [hinner]
    unfold signalInnerPlaintext
    simp
  have htake : (inner.drop 2).take (signalInnerLen inner) =
      m.Typ :: (m.SessionID ++ m.Payload) := by
    rw [hdrop2, hsil]
    exact List.take_left' (by simp [hsid]; try omega)
  rw [htake]
  have hSid : ((m.Typ :: (m.SessionID ++ m.Payload)).drop 1).take 16 = m.SessionID := by
    rw [List.drop_succ_cons, List.drop_zero]
    exact List.take_left' hsid
  have hPay : (m.Typ :: (m.SessionID ++ m.Payload)).drop 17 = m.Payload := by
    rw [List.drop_succ_cons]
    exact List.drop_left' hsid
  rw [hSid, hPay]
  rfl

/-- Concrete instantiation of C10 with the model box pair at a sample
message. -/
theorem C10_signal_roundtrip_witness :
    decodeSignalMessage modelBoxOpen
        (encodeSignalMessage modelBoxSeal 5
          ⟨3, List.replicate 16 2, [9, 9, 9]⟩) =
      .ok ⟨3, List.replicate 16 2, [9, 9, 9]⟩ :=
  C10_signal_roundtrip modelBoxSeal modelBoxOpen 5 ⟨3, List.replicate 16 2, [9, 9, 9]⟩
    (by decide) (by decide)
    (by
      intro n pt
      unfold modelBoxOpen modelBoxSeal
      rw [if_pos (by simp)]
      rw [List.drop_left' (by simp)])
    (by
      intro n pt
      unfold modelBoxSeal
      simp
      try omega)

/-! ## Relay pseudo-connection state (internal/nat/relay_conn.go)

The Go relayConn couples mutable state (read buffer, deadlines, flags, the
buffered incoming channel) with two injected closures (sendSignal,
onClosed).  The embedding models the state; the closure effects (signals
sent, session-map deletion) are modelled at the call sites of the service
operations.  A Go channel that has been closed still yields its buffered
values, so closing is a flag (incomingClosed) separate from the queue. -/

structure relayConnState where
  sessionID : List Nat
  remote : List Nat
  remoteClosed : Bool
  closedLocal : Bool
  incomingClosed : Bool
  incomingQueue : List (List Nat)
  readBuf : List Nat
  deriving DecidableEq, Repr

/-- newRelayConn: fresh state with open channels and empty buffers. -/
def newRelayConn (sessionID : List Nat) (source : List Nat) : relayConnState :=
  { sessionID := sessionID
    remote := source
    remoteClosed := false
    closedLocal := false
    incomingClosed := false
    incomingQueue := []
    readBuf := [] }

/-- markRemoteClosed: set the flag and close the incoming channel, once. -/
def markRemoteClosed (c : relayConnState) : relayConnState :=
  if c.remoteClosed then c
  else { c with remoteClosed := true, incomingClosed := true }

/-- relayConn.Close, state part: the once-guard closes the closed channel;
the onClosed hook and the signalClose send are service-level effects. -/
def relayConnClose (c : relayConnState) : relayConnState :=
  if c.closedLocal then c else { c with closedLocal := true }

/-! ## Service session table (internal/nat/service.go)

The Go session map is modelled as an association list with unique keys;
map iteration order only feeds commutative folds (counting, filtering) in
the code under scrutiny. -/

def maxPendingRelaySessions : Nat := 256
def pendingRelaySessionTTL : Int := 30

structure relaySessionKey where
  Peer : List Nat
  SessionID : List Nat
  deriving DecidableEq, Repr

structure relaySession where
  conn : relayConnState
  accepted : Bool
  lastActivity : Int
  deriving DecidableEq, Repr

def tblLookup (t : List (relaySessionKey × relaySession)) (k : relaySessionKey) :
    Option relaySession :=
  match t with
  | [] => none
  | (k2, s) :: rest => if k2 = k then some s else tblLookup rest k

/-- Go map assignment: replace the binding when present, append otherwise. -/
def tblSet (t : List (relaySessionKey × relaySession)) (k : relaySessionKey)
    (v : relaySession) : List (relaySessionKey × relaySession) :=
  match t with
  | [] => [(k, v)]
  | (k2, s) :: rest => if k2 = k then (k2, v) :: rest else (k2, s) :: tblSet rest k v

/-- pendingRelaySessionsLocked: count the sessions not yet accepted. -/
def pendingRelaySessionsLocked (t : List (relaySessionKey × relaySession)) : Nat :=
  (t.filter (fun e => !e.2.accepted)).length

/-- handleDialInit: look up {source, session id}; when absent and the
pending count has reached the cap, reply signalClose and insert nothing;
when absent below the cap, insert a fresh non-accepted session and ack;
when present, refresh last_activity and ack. -/
def handleDialInit (sessions : List (relaySessionKey × relaySession))
    (source : List Nat) (message : signalMessage) (now : Int) :
    List (relaySessionKey × relaySession) × List signalMessage :=
  let sessionKey : relaySessionKey := ⟨source, message.SessionID⟩
  match tblLookup sessions sessionKey with
  | none =>
      if maxPendingRelaySessions ≤ pendingRelaySessionsLocked sessions then
        (sessions, [⟨signalClose, message.SessionID, []⟩])
      else
        (sessions ++ [(sessionKey, ⟨newRelayConn message.SessionID source, false, now⟩)],
         [⟨signalDialAck, message.SessionID, []⟩])
  | some session =>
      (tblSet sessions sessionKey { session with lastActivity := now },
       [⟨signalDialAck, message.SessionID, []⟩])

/-- A sequence of dialInit messages from one peer, threading the table. -/
def processDialInits (sessions : List (relaySessionKey × relaySession))
    (source : List Nat) (sids : List (List Nat)) (now : Int) :
    List (relaySessionKey × relaySession) :=
  sids.foldl (fun acc sid => (handleDialInit acc source ⟨signalDialInit, sid, []⟩ now).1)
    sessions

theorem pending_eq_length {t : List (relaySessionKey × relaySession)}
    (h : ∀ e ∈ t, e.2.accepted = false) :
    pendingRelaySessionsLocked t = t.length := by
  unfold pendingRelaySessionsLocked
  induction t with
  | nil => rfl
  | cons e rest ih =>
    have he := h e (by simp)
    have ih2 := ih (fun e2 h2 => h e2 (by simp [h2]))
    rw [List.filter_cons]
    simp [he, ih2]

theorem tblLookup_append_single (t : List (relaySessionKey × relaySession))
    (k k2 : relaySessionKey) (v : relaySession) (hk : tblLookup t k2 = none)
    (hne : k ≠ k2) : tblLookup (t ++ [(k, v)]) k2 = none := by
  induction t with
  | nil =>
    simp only [List.nil_append]
    unfold tblLookup
    rw [if_neg hne]
    rfl
  | cons e rest ih =>
    obtain ⟨ek, ev⟩ := e
    rw [List.cons_append]
    unfold tblLookup at hk ⊢
    by_cases he : ek = k2
    · rw [if_pos he] at hk
      exact absurd hk (by simp)
    · rw [if_neg he] at hk ⊢
      exact ih hk

/-- Tables of all-pending sessions grow by one per fresh dialInit until the
256 cap, after which they stay put. -/
theorem processDialInits_length :
    ∀ (sids : List (List Nat)) (t : List (relaySessionKey × relaySession))
      (source : List Nat) (now : Int),
      sids.Nodup →
      (∀ e ∈ t, e.2.accepted = false) →
      (∀ sid ∈ sids, tblLookup t ⟨source, sid⟩ = none) →
      t.length ≤ 256 →
      (processDialInits t source sids now).length = min (t.length + sids.length) 256 := by
  intro sids
  induction sids with
  | nil =>
    intro t source now _ _ _ hle
    unfold processDialInits
    simp
    omega
  | cons sid rest ih =>
    intro t source now hnd hap hfresh hle
    have hlook : tblLookup t ⟨source, sid⟩ = none := hfresh sid (by simp)
    have hpend : pendingRelaySessionsLocked t = t.length := pending_eq_length hap
    obtain ⟨hsidrest, hndrest⟩ := List.nodup_cons.mp hnd
    have hPD : processDialInits t source (sid :: rest) now =
        processDialInits ((handleDialInit t source ⟨signalDialInit, sid, []⟩ now).1)
          source rest now := by
      unfold processDialInits
      rw [List.foldl_cons]
    by_cases hfull : 256 ≤ t.length
    · have hstep : (handleDialInit t source ⟨signalDialInit, sid, []⟩ now).1 = t := by
        unfold handleDialInit
        simp only [hlook]
        rw [if_pos (by rw [hpend]; exact hfull)]
      rw [hPD, hstep]
      rw [ih t source now hndrest hap (fun sid2 h2 => hfresh sid2 (by simp [h2])) hle]
      simp only [List.length_cons]
      omega
    · have hstep : (handleDialInit t source ⟨signalDialInit, sid, []⟩ now).1 =
          t ++ [(⟨source, sid⟩, ⟨newRelayConn sid source, false, now⟩)] := by
        unfold handleDialInit
        simp only [hlook]
        rw [if_neg (by rw [hpend]; unfold maxPendingRelaySessions; omega)]
      rw [hPD, hstep]
      have hap2 : ∀ e ∈ t ++ [((⟨source, sid⟩ : relaySessionKey),
          (⟨newRelayConn sid source, false, now⟩ : relaySession))],
          e.2.accepted = false := by
        intro e he
        rcases List.mem_append.mp he with h1 | h1
        · exact hap e h1
        · simp at h1
          rw [h1]
      have hfresh2 : ∀ sid2 ∈ rest,
          tblLookup (t ++ [((⟨source, sid⟩ : relaySessionKey),
            (⟨newRelayConn sid source, false, now⟩ : relaySession))])
            ⟨source, sid2⟩ = none := by
        intro sid2 h2
        apply tblLookup_append_single t _ _ _ (hfresh sid2 (by simp [h2]))
        intro hkey
        have hss : sid = sid2 := by
          injection hkey
        exact hsidrest (hss ▸ h2)
      have hle2 : (t ++ [((⟨source, sid⟩ : relaySessionKey),
          (⟨newRelayConn sid source, false, now⟩ : relaySession))]).length ≤ 256 := by
        simp
        omega
      have hih := ih (t ++ [((⟨source, sid⟩ : relaySessionKey),
        (⟨newRelayConn sid source, false, now⟩ : relaySession))]) source now
        hndrest hap2 hfresh2 hle2
      rw [hih]
      simp only [List.length_append, List.length_cons, List.length_nil]
      omega

/-- C5: when a dialInit arrives for an absent {peer, session id} key and at
least 256 sessions are pending, the handler replies signalClose and leaves
the table unchanged; consequently N > 256 dialInit messages from one peer
with distinct never-seen session ids starting from an empty table leave
exactly 256 entries, so the non-accepted session count never exceeds 256. -/
theorem C5_pending_session_cap :
    (∀ (sessions : List (relaySessionKey × relaySession)) (source : List Nat)
        (message : signalMessage) (now : Int),
      tblLookup sessions ⟨source, message.SessionID⟩ = none →
      256 ≤ pendingRelaySessionsLocked sessions →
      handleDialInit sessions source message now =
        (sessions, [⟨signalClose, message.SessionID, []⟩])) ∧
    (∀ (source : List Nat) (sids : List (List Nat)) (now : Int),
      sids.Nodup → 256 < sids.length →
      (processDialInits [] source sids now).length = 256) := by
  constructor
  · intro sessions source message now hlook hfull
    unfold handleDialInit
    simp only [hlook]
    rw [if_pos (show maxPendingRelaySessions ≤ pendingRelaySessionsLocked sessions from hfull)]
  · intro source sids now hnd hlen
    rw [processDialInits_length sids [] source now hnd (by simp) (by intro sid h; rfl)
      (by simp)]
    simp
    omega

set_option maxRecDepth 100000 in
/-- Concrete instantiation of C5: the flood part at 257 distinct session
ids, and the cap part at a full table of 256 pending sessions. -/
theorem C5_pending_session_cap_witness :
    (processDialInits [] [1] ((List.range 257).map (fun n => [n])) 0).length = 256 ∧
    handleDialInit
        ((List.range 256).map
          (fun n => (⟨[1], [n]⟩, ⟨newRelayConn [n] [1], false, 0⟩)))
        [1] ⟨1, [9, 9], []⟩ 0 =
      (((List.range 256).map
          (fun n => (⟨[1], [n]⟩, ⟨newRelayConn [n] [1], false, 0⟩))),
       [⟨signalClose, [9, 9], []⟩]) := by
  constructor
  · exact C5_pending_session_cap.2 [1] ((List.range 257).map (fun n => [n])) 0
      (List.Nodup.map (fun a b h => by simpa using h) (List.nodup_range 257))
      (by simp)
  · exact C5_pending_session_cap.1 _ [1] ⟨1, [9, 9], []⟩ 0 (by decide) (by decide)

/-- One iteration order of the Go sweep loop: keep sessions that are
accepted or whose last activity is strictly after the cutoff (Go
time.After), collect the connections of the removed ones. -/
def pruneLoop (cutoff : Int) :
    List (relaySessionKey × relaySession) →
      List (relaySessionKey × relaySession) × List relayConnState
  | [] => ([], [])
  | e :: rest =>
      let r := pruneLoop cutoff rest
      if e.2.accepted = true ∨ cutoff < e.2.lastActivity then (e :: r.1, r.2)
      else (r.1, e.2.conn :: r.2)

/-- prunePendingRelaySessions: cutoff is now minus the 30-second TTL; the
removed connections are marked remote-closed and closed. -/
def prunePendingRelaySessions (t : List (relaySessionKey × relaySession)) (now : Int) :
    List (relaySessionKey × relaySession) × List relayConnState :=
  let cutoff := now - pendingRelaySessionTTL
  let r := pruneLoop cutoff t
  (r.1, r.2.map (fun c => relayConnClose (markRemoteClosed c)))

/-- C6 counterexample to the claim as stated: a pending session whose
last_activity is exactly at the cutoff (not older than it) is removed by
the sweep, because the code keeps only sessions with last_activity
strictly after the cutoff. -/
theorem C6_claim_counterexample :
    (prunePendingRelaySessions
        [(⟨[2], [1]⟩, ⟨newRelayConn [1] [2], false, 0⟩)] 30).1 = [] ∧
      ¬((0 : Int) < 30 - pendingRelaySessionTTL) ∧
      (30 - pendingRelaySessionTTL : Int) = 0 := by
  refine ⟨by decide, by decide, by decide⟩

theorem mark_close_flags (c : relayConnState) :
    (relayConnClose (markRemoteClosed c)).remoteClosed = true ∧
      (relayConnClose (markRemoteClosed c)).closedLocal = true := by
  unfold markRemoteClosed relayConnClose
  by_cases h1 : c.remoteClosed = true
  · rw [if_pos h1]
    by_cases h2 : c.closedLocal = true
    · rw [if_pos h2]
      exact ⟨h1, h2⟩
    · rw [if_neg h2]
      exact ⟨h1, rfl⟩
  · rw [if_neg h1]
    by_cases h2 : c.closedLocal = true
    · rw [if_pos h2]
      exact ⟨rfl, h2⟩
    · rw [if_neg h2]
      exact ⟨rfl, rfl⟩

/-- C6 (amended): one run of the stale sweep removes exactly the sessions
with accepted = false and last_activity at or before the cutoff of now
minus 30 seconds (the code keeps strictly-after only), marking each removed
session's connection remote-closed and closing it; every accepted session
and every pending session with last_activity strictly after the cutoff
survives unchanged, in order. -/
theorem C6_stale_sweep (t : List (relaySessionKey × relaySession)) (now : Int) :
    (prunePendingRelaySessions t now).1 =
      t.filter (fun e => e.2.accepted ||
        decide ((now - pendingRelaySessionTTL) < e.2.lastActivity)) ∧
    (prunePendingRelaySessions t now).2 =
      (t.filter (fun e => !(e.2.accepted ||
        decide ((now - pendingRelaySessionTTL) < e.2.lastActivity)))).map
          (fun e => relayConnClose (markRemoteClosed e.2.conn)) ∧
    ∀ c ∈ (prunePendingRelaySessions t now).2,
      c.remoteClosed = true ∧ c.closedLocal = true := by
  have hchar : ∀ (u : List (relaySessionKey × relaySession)),
      pruneLoop (now - pendingRelaySessionTTL) u =
        (u.filter (fun e => e.2.accepted ||
          decide ((now - pendingRelaySessionTTL) < e.2.lastActivity)),
         (u.filter (fun e => !(e.2.accepted ||
          decide ((now - pendingRelaySessionTTL) < e.2.lastActivity)))).map
            (fun e => e.2.conn)) := by
    intro u
    induction u with
    | nil => rfl
    | cons e rest ih =>
      unfold pruneLoop
      rw [ih]
      by_cases hcond : e.2.accepted = true ∨ (now - pendingRelaySessionTTL) < e.2.lastActivity
      · rw [if_pos hcond]
        have hb : (e.2.accepted ||
            decide ((now - pendingRelaySessionTTL) < e.2.lastActivity)) = true := by
          rcases hcond with h | h
          · simp [h]
          · simp [h]
        rw [List.filter_cons, List.filter_cons]
        simp [hb]
      · rw [if_neg hcond]
        push_neg at hcond
        have hb : (e.2.accepted ||
            decide ((now - pendingRelaySessionTTL) < e.2.lastActivity)) = false := by
          simp [hcond.1, hcond.2]
        rw [List.filter_cons, List.filter_cons]
        simp [hb]
  have h12 : prunePendingRelaySessions t now =
      (t.filter (fun e => e.2.accepted ||
        decide ((now - pendingRelaySessionTTL) < e.2.lastActivity)),
       (t.filter (fun e => !(e.2.accepted ||
        decide ((now - pendingRelaySessionTTL) < e.2.lastActivity)))).map
          (fun e => relayConnClose (markRemoteClosed e.2.conn))) := by
    unfold prunePendingRelaySessions
    simp only [hchar t]
    simp [List.map_map, Function.comp]
  refine ⟨by rw [h12], by rw [h12], ?_⟩
  intro c hc
  rw [h12] at hc
  simp only [List.mem_map] at hc
  obtain ⟨e, -, rfl⟩ := hc
  exact mark_close_flags e.2.conn

/-- Concrete instantiation of C6 at a two-session table: the fresh pending
session survives, the stale one is removed with its connection closed. -/
theorem C6_stale_sweep_witness :
    (prunePendingRelaySessions
        [(⟨[2], [1]⟩, ⟨newRelayConn [1] [2], false, -1⟩),
         (⟨[2], [3]⟩, ⟨newRelayConn [3] [2], false, 25⟩)] 30).1 =
      [(⟨[2], [3]⟩, ⟨newRelayConn [3] [2], false, 25⟩)] ∧
    ∀ c ∈ (prunePendingRelaySessions
        [(⟨[2], [1]⟩, ⟨newRelayConn [1] [2], false, -1⟩),
         (⟨[2], [3]⟩, ⟨newRelayConn [3] [2], false, 25⟩)] 30).2,
      c.remoteClosed = true ∧ c.closedLocal = true := by
  constructor
  · rw [(C6_stale_sweep _ 30).1]
    decide
  · exact (C6_stale_sweep _ 30).2.2

/-! ## Accept listener (internal/nat/listener.go)

The listener holds a closed flag (set together with closing the close
channel under the mutex) and a 128-slot queue of pending connections,
modelled as a list of connection ids.  Accept first polls the close
channel with a default branch: a closed listener is detected
deterministically before the blocking select is reached, which is why the
model's accept is a function.  The blocking select is reached only with
the close channel still open in a sequential execution, so it returns the
next queued connection or blocks. -/

structure connListenerState where
  closed : Bool
  queue : List Nat
  deriving DecidableEq, Repr

inductive acceptResult where
  | conn (c : Nat)
  | errClosed
  | wouldBlock
  deriving DecidableEq, Repr

inductive pushResult where
  | pushed
  | errClosed
  | overloaded
  deriving DecidableEq, Repr

/-- connListener.Accept: poll the close channel first (default branch), then
take the next queued connection or block. -/
def connListenerAccept (l : connListenerState) : acceptResult × connListenerState :=
  if l.closed then (.errClosed, l)
  else
    match l.queue with
    | [] => (.wouldBlock, l)
    | c :: rest => (.conn c, { l with queue := rest })

/-- connListener.Close: idempotent; reports the closed error when already
closed, and marks the listener closed (flag and channel move together). -/
def connListenerClose (l : connListenerState) : Option String × connListenerState :=
  if l.closed then (some "use of closed network connection", l)
  else (none, { l with closed := true })

/-- connListener.push: rejected on a closed listener; enqueue when a slot of
the 128 is free; otherwise the 2-second wait expires into an overloaded
error. -/
def connListenerPush (l : connListenerState) (c : Nat) : pushResult × connListenerState :=
  if l.closed then (.errClosed, l)
  else if l.queue.length < 128 then (.pushed, { l with queue := l.queue ++ [c] })
  else (.overloaded, l)

/-- C7: once Close has returned, every subsequent Accept returns the
closed-listener error and leaves the state unchanged (so a pending
connection is never returned after close), even when a connection was
pushed into the queue just before the close. -/
theorem C7_accept_after_close (l : connListenerState) (c : Nat) :
    (connListenerAccept (connListenerClose l).2).1 = .errClosed ∧
    (connListenerAccept (connListenerClose l).2).2 = (connListenerClose l).2 ∧
    ((connListenerPush l c).1 = .pushed →
      (connListenerAccept (connListenerClose (connListenerPush l c).2).2).1 = .errClosed) := by
  have hclosed : ∀ l2 : connListenerState, (connListenerClose l2).2.closed = true := by
    intro l2
    unfold connListenerClose
    by_cases h : l2.closed = true
    · rw [if_pos h]
      exact h
    · rw [if_neg h]
  have hacc : ∀ l2 : connListenerState, l2.closed = true →
      connListenerAccept l2 = (.errClosed, l2) := by
    intro l2 h
    unfold connListenerAccept
    rw [if_pos h]
  refine ⟨?_, ?_, ?_⟩
  · rw [hacc _ (hclosed l)]
  · rw [hacc _ (hclosed l)]
  · intro _
    rw [hacc _ (hclosed (connListenerPush l c).2)]

/-- Concrete instantiation of C7: push one connection, close, accept
errors. -/
theorem C7_accept_after_close_witness :
    (connListenerPush ⟨false, []⟩ 7).1 = .pushed ∧
    (connListenerAccept (connListenerClose (connListenerPush ⟨false, []⟩ 7).2).2).1 =
      .errClosed :=
  ⟨by decide, (C7_accept_after_close ⟨false, []⟩ 7).2.2 (by decide)⟩

/-! ## relayConn read path (internal/nat/relay_conn.go)

Read loops: drain the read-buffer residue first; then, with the buffer
empty, return EOF as soon as the remoteClosed flag is observed; otherwise
receive from the incoming channel (append to the buffer and loop), observe
the channel close (set the flag and loop, which lands on the EOF branch),
observe the local close channel, or block.  When both the incoming channel
and the close channel are ready, Go picks a case at random; the model
prefers the incoming payload — the claims under scrutiny do not depend on
that choice.  Deadlines (timer branch) are not modelled: the claims are
about the zero-deadline path. -/

inductive readResult where
  | bytes (bs : List Nat)
  | eof
  | errClosed
  | wouldBlock
  deriving DecidableEq, Repr

inductive pushIncomingResult where
  | pushed
  | connClosed
  | sendOnClosedChannel
  | wouldBlock
  deriving DecidableEq, Repr

/-- relayConn.pushIncoming: a locally closed conn refuses the payload; a
send on a closed incoming channel is a Go runtime panic, recorded as its
own result; otherwise enqueue into the 256-slot channel or block. -/
def relayConnPushIncoming (c : relayConnState) (payload : List Nat) :
    pushIncomingResult × relayConnState :=
  if c.closedLocal then (.connClosed, c)
  else if c.incomingClosed then (.sendOnClosedChannel, c)
  else if c.incomingQueue.length < 256 then
    (.pushed, { c with incomingQueue := c.incomingQueue ++ [payload] })
  else (.wouldBlock, c)

/-- relayConn.Read on the zero-deadline path.  The ok=false receive (queue
empty, channel closed) sets remoteClosed and loops; with the buffer still
empty that iteration returns EOF, which the model inlines. -/
def relayConnRead (c : relayConnState) (maxLen : Nat) : readResult × relayConnState :=
  if c.readBuf ≠ [] then
    (.bytes (c.readBuf.take maxLen), { c with readBuf := c.readBuf.drop maxLen })
  else if c.remoteClosed then (.eof, c)
  else
    match hq : c.incomingQueue with
    | payload :: rest =>
        relayConnRead { c with readBuf := c.readBuf ++ payload, incomingQueue := rest } maxLen
    | [] =>
        if c.incomingClosed then (.eof, { c with remoteClosed := true })
        else if c.closedLocal then (.errClosed, c)
        else (.wouldBlock, c)
termination_by c.incomingQueue.length
decreasing_by simp [hq]

/-- C8 counterexample to the claim as stated: push a payload, mark the conn
remote-closed, then Read.  The read buffer is empty and the payload still
sits in the incoming queue, yet Read returns EOF — the flag check precedes
the queue drain, so queued payloads are discarded. -/
theorem C8_claim_counterexample :
    (relayConnRead
        (markRemoteClosed (relayConnPushIncoming (newRelayConn [1] [2]) [1, 2, 3]).2)
        10).1 = .eof ∧
    (markRemoteClosed
        (relayConnPushIncoming (newRelayConn [1] [2]) [1, 2, 3]).2).incomingQueue ≠ [] ∧
    (markRemoteClosed
        (relayConnPushIncoming (newRelayConn [1] [2]) [1, 2, 3]).2).readBuf = [] := by
  refine ⟨?_, by decide, by decide⟩
  rw [show (relayConnRead
      (markRemoteClosed (relayConnPushIncoming (newRelayConn [1] [2]) [1, 2, 3]).2)
      10) = (.eof, markRemoteClosed
        (relayConnPushIncoming (newRelayConn [1] [2]) [1, 2, 3]).2) from by
    unfold relayConnRead
    decide]

/-- C8 (amended): the remoteClosed flag transitions from false to true at
most once (marking is idempotent and a no-op when already set); after the
transition a Read first drains the bytes still in the read buffer and, once
the buffer is empty, returns EOF immediately — payloads still queued in the
incoming channel are not delivered. -/
theorem C8_remote_closed_read (c : relayConnState) (maxLen : Nat) :
    markRemoteClosed (markRemoteClosed c) = markRemoteClosed c ∧
    (markRemoteClosed c).remoteClosed = true ∧
    (c.remoteClosed = true → markRemoteClosed c = c) ∧
    (c.remoteClosed = true → c.readBuf = [] → relayConnRead c maxLen = (.eof, c)) ∧
    (c.remoteClosed = true → c.readBuf ≠ [] →
      relayConnRead c maxLen =
        (.bytes (c.readBuf.take maxLen), { c with readBuf := c.readBuf.drop maxLen })) := by
  have hmark : ∀ c2 : relayConnState, (markRemoteClosed c2).remoteClosed = true := by
    intro c2
    unfold markRemoteClosed
    by_cases h : c2.remoteClosed = true
    · rw [if_pos h]
      exact h
    · rw [if_neg h]
  have hidem : ∀ c2 : relayConnState, c2.remoteClosed = true → markRemoteClosed c2 = c2 := by
    intro c2 h
    unfold markRemoteClosed
    rw [if_pos h]
  refine ⟨hidem _ (hmark c), hmark c, hidem c, ?_, ?_⟩
  · intro hrc hbuf
    unfold relayConnRead
    rw [if_neg (by simp [hbuf]), if_pos hrc]
  · intro hrc hbuf
    unfold relayConnRead
    rw [if_pos hbuf]

/-- Concrete instantiation of C8 at a remote-closed conn with buffered
residue and a queued payload: the residue is returned, then EOF. -/
theorem C8_remote_closed_read_witness :
    relayConnRead
        ⟨[9], [2], true, false, true, [[7, 7]], [5, 6]⟩ 10 =
      (.bytes [5, 6], ⟨[9], [2], true, false, true, [[7, 7]], []⟩) ∧
    relayConnRead
        ⟨[9], [2], true, false, true, [[7, 7]], []⟩ 10 =
      (.eof, ⟨[9], [2], true, false, true, [[7, 7]], []⟩) := by
  constructor
  · have h := (C8_remote_closed_read ⟨[9], [2], true, false, true, [[7, 7]], [5, 6]⟩ 10).2.2.2.2
      rfl (by decide)
    rw [h]
    rfl
  · exact (C8_remote_closed_read ⟨[9], [2], true, false, true, [[7, 7]], []⟩ 10).2.2.2.1
      rfl rfl

/-! ## DERP node selection (internal/nat/derp_select.go, derpmap package)

Nodes and regions carry the fields the selection code reads (the region
code and name strings and the node certificate and address strings are
omitted: nothing in the selection touches them).  The Go map from region
id to region is an association list whose keys a Go map keeps unique. -/

structure Node where
  Name : List Nat
  RegionID : Int
  HostName : List Nat
  STUNPort : Nat
  DERPPort : Nat
  InsecureForTests : Bool
  deriving DecidableEq, Repr

structure Region where
  RegionID : Int
  Nodes : List Node
  deriving DecidableEq, Repr

structure derpRegionCandidate where
  regionID : Int
  node : Node
  deriving DecidableEq, Repr

/-- Go map index Regions[regionID]. -/
def regionLookup (regions : List (Int × Region)) (regionID : Int) : Option Region :=
  match regions with
  | [] => none
  | (k, r) :: rest => if k = regionID then some r else regionLookup rest regionID

/-- normaliseDERPNode: reject a hostname blank after trimming, default the
DERP port to 443 and the STUN port to 3478 when zero. -/
def normaliseDERPNode (node : Node) : Option Node :=
  if trimSpace node.HostName = [] then none
  else
    let node1 := if node.DERPPort = 0 then { node with DERPPort := 443 } else node
    let node2 := if node1.STUNPort = 0 then { node1 with STUNPort := 3478 } else node1
    some node2

/-- firstUsableNode: first node that normalises. -/
def firstUsableNode (nodes : List Node) : Option Node :=
  match nodes with
  | [] => none
  | node :: rest =>
      match normaliseDERPNode node with
      | some n => some n
      | none => firstUsableNode rest

def insertSorted (x : Int) : List Int → List Int
  | [] => [x]
  | y :: rest => if x ≤ y then x :: y :: rest else y :: insertSorted x rest

def insertionSort : List Int → List Int
  | [] => []
  | x :: rest => insertSorted x (insertionSort rest)

/-- Modelled from the spec: the two-argument orderedRegionIDs that
orderedDERPRegionCandidates calls is code of this repository missing from
the sources (only a one-argument variant sorting all region ids ascending
is present).  Per the spec, the order is the preferred region first when
present in the map, then the remaining region ids in ascending numeric
order. -/
def orderedRegionIDs (regions : List (Int × Region)) (preferredRegion : Int) : List Int :=
  let ids := insertionSort (regions.map (·.1))
  if preferredRegion ∈ ids then
    preferredRegion :: ids.filter (fun i => i ≠ preferredRegion)
  else ids

/-- orderedDERPRegionCandidates: error on a nil or empty map, walk the
ordered region ids, skip missing regions and regions without a usable
node, error when nothing was collected. -/
def orderedDERPRegionCandidates (derpMap : Option (List (Int × Region)))
    (preferredRegion : Int) : Except String (List derpRegionCandidate) :=
  match derpMap with
  | none => .error "derp map has no regions"
  | some regions =>
      if regions = [] then .error "derp map has no regions"
      else
        let tryRegions := orderedRegionIDs regions preferredRegion
        let candidates := tryRegions.filterMap (fun regionID =>
          match regionLookup regions regionID with
          | none => none
          | some region =>
              match firstUsableNode region.Nodes with
              | none => none
              | some node => some ⟨regionID, node⟩)
        if candidates = [] then .error "derp map contains no usable node"
        else .ok candidates

/-- pickDERPNode: the first ordered candidate.  The empty-candidates arm is
unreachable (the builder errors instead); Go indexes candidates[0]. -/
def pickDERPNode (derpMap : Option (List (Int × Region))) (preferredRegion : Int) :
    Except String (Int × Node) :=
  match orderedDERPRegionCandidates derpMap preferredRegion with
  | .error e => .error e
  | .ok candidates =>
      match candidates with
      | [] => .error "derp map contains no usable node"
      | c :: _ => .ok (c.regionID, c.node)

/-- Selection as the claim words it (with usable amended to mean a
hostname non-empty after trimming): walk the preferred region first then
the remaining ids ascending, take each region's first usable node with the
DERP port defaulted to 443 when zero, and return the first match; none
when the map is empty or has no usable node.  The claim does not speak
about the STUN port, so this reading leaves it untouched. -/
def pickDERPNodeSpec (derpMap : Option (List (Int × Region))) (preferredRegion : Int) :
    Option (Int × Node) :=
  match derpMap with
  | none => none
  | some regions =>
      (orderedRegionIDs regions preferredRegion).findSome? (fun regionID =>
        (regionLookup regions regionID).bind (fun region =>
          (specUsableNode region.Nodes).map (fun node => (regionID, node))))
where
  specUsableNode (nodes : List Node) : Option Node :=
    (nodes.find? (fun n => !decide (trimSpace n.HostName = []))).map
      (fun n => { n with DERPPort := if n.DERPPort = 0 then 443 else n.DERPPort })

theorem normalise_none {node : Node} (hb : trimSpace node.HostName = []) :
    normaliseDERPNode node = none := by
  unfold normaliseDERPNode
  rw [if_pos hb]

theorem normalise_some {node : Node} (hb : ¬(trimSpace node.HostName = [])) :
    normaliseDERPNode node =
      some { node with DERPPort := if node.DERPPort = 0 then 443 else node.DERPPort
                       STUNPort := if node.STUNPort = 0 then 3478 else node.STUNPort } := by
  unfold normaliseDERPNode
  rw [if_neg hb]
  by_cases hd : node.DERPPort = 0 <;> by_cases hs : node.STUNPort = 0 <;>
    simp [hd, hs]

theorem firstUsableNode_eq_spec (nodes : List Node) :
    firstUsableNode nodes =
      (pickDERPNodeSpec.specUsableNode nodes).map
        (fun n => { n with STUNPort := if n.STUNPort = 0 then 3478 else n.STUNPort }) := by
  induction nodes with
  | nil => rfl
  | cons node rest ih =>
    by_cases hb : trimSpace node.HostName = []
    · simp only [firstUsableNode, normalise_none hb]
      rw [ih]
      unfold pickDERPNodeSpec.specUsableNode
      rw [List.find?_cons_of_neg _ (by simp [hb])]
    · simp only [firstUsableNode, normalise_some hb]
      unfold pickDERPNodeSpec.specUsableNode
      rw [List.find?_cons_of_pos _ (by simp [hb])]
      simp

theorem head_filterMap_eq_findSome? {α β : Type} (f : α → Option β) (l : List α) :
    (l.filterMap f).head? = l.findSome? f := by
  induction l with
  | nil => rfl
  | cons a rest ih =>
    cases hf : f a <;> simp [List.filterMap_cons, List.findSome?_cons, hf, ih]

theorem findSome?_comp_map {α β γ : Type} (g : α → Option β) (h : β → γ) (l : List α) :
    l.findSome? (fun x => (g x).map h) = (l.findSome? g).map h := by
  induction l with
  | nil => rfl
  | cons a rest ih =>
    cases hg : g a <;> simp [List.findSome?_cons, hg, ih]

theorem mem_insertSorted (x y : Int) (l : List Int) :
    x ∈ insertSorted y l ↔ x = y ∨ x ∈ l := by
  induction l with
  | nil => simp [insertSorted]
  | cons z rest ih =>
    unfold insertSorted
    by_cases h : y ≤ z
    · rw [if_pos h]
      simp
    · rw [if_neg h]
      simp [ih]
      tauto

theorem mem_insertionSort (x : Int) (l : List Int) :
    x ∈ insertionSort l ↔ x ∈ l := by
  induction l with
  | nil => simp [insertionSort]
  | cons y rest ih =>
    unfold insertionSort
    rw [mem_insertSorted]
    simp [ih]

theorem mem_orderedRegionIDs (regions : List (Int × Region)) (pr x : Int) :
    x ∈ orderedRegionIDs regions pr ↔ x ∈ regions.map (·.1) := by
  unfold orderedRegionIDs
  by_cases hp : pr ∈ insertionSort (regions.map (·.1))
  · rw [if_pos hp]
    simp only [List.mem_cons, List.mem_filter]
    constructor
    · rintro (rfl | ⟨hmem, -⟩)
      · exact (mem_insertionSort _ _).mp hp
      · exact (mem_insertionSort _ _).mp hmem
    · intro hmem
      by_cases hx : x = pr
      · exact Or.inl hx
      · exact Or.inr ⟨(mem_insertionSort _ _).mpr hmem, by simpa using hx⟩
  · rw [if_neg hp]
    exact mem_insertionSort x _

theorem regionLookup_mem {regions : List (Int × Region)} {id : Int} {r : Region}
    (h : regionLookup regions id = some r) : (id, r) ∈ regions := by
  induction regions with
  | nil => exact absurd h (by simp [regionLookup])
  | cons e rest ih =>
    obtain ⟨k, reg⟩ := e
    unfold regionLookup at h
    by_cases hk : k = id
    · rw [if_pos hk] at h
      injection h with h
      subst hk
      subst h
      simp
    · rw [if_neg hk] at h
      exact List.mem_cons_of_mem _ (ih h)

theorem regionLookup_of_mem_nodup {regions : List (Int × Region)} {id : Int} {r : Region}
    (hnd : (regions.map (·.1)).Nodup) (h : (id, r) ∈ regions) :
    regionLookup regions id = some r := by
  induction regions with
  | nil => exact absurd h (by simp)
  | cons e rest ih =>
    obtain ⟨k, reg⟩ := e
    rw [List.map_cons, List.nodup_cons] at hnd
    rcases List.mem_cons.mp h with h1 | h1
    · injection h1 with h1a h1b
      unfold regionLookup
      rw [if_pos (by rw [h1a])]
      rw [h1b]
    · unfold regionLookup
      by_cases hk : k = id
      · exfalso
        apply hnd.1
        rw [hk]
        exact List.mem_map.mpr ⟨(id, r), h1, rfl⟩
      · rw [if_neg hk]
        exact ih hnd.2 h1

/-- C9 (amended): server-side node selection agrees with the selection the
claim describes — preferred region (when present) first, remaining region
ids ascending, first usable node per region with the DERP port defaulted
to 443 — where "usable" means the hostname is non-empty after trimming
whitespace (the code trims; the claim as stated says only non-empty), and
the code additionally defaults a zero STUN port to 3478, which the claim
does not constrain; selection fails exactly when the map is nil or empty
or no region contains a usable node.  The hypothesis is key uniqueness,
which the Go map guarantees. -/
theorem C9_pick_derp_node (m : Option (List (Int × Region))) (pr : Int)
    (hnd : ∀ regions, m = some regions → (regions.map (·.1)).Nodup) :
    ((∃ c, pickDERPNode m pr = .ok c) ↔ ∃ c, pickDERPNodeSpec m pr = some c) ∧
    (∀ rid node, pickDERPNodeSpec m pr = some (rid, node) →
      pickDERPNode m pr = .ok (rid,
        { node with STUNPort := if node.STUNPort = 0 then 3478 else node.STUNPort })) ∧
    ((∃ e, pickDERPNode m pr = .error e) ↔
      (m = none ∨ ∃ regions, m = some regions ∧
        (regions = [] ∨ ∀ e ∈ regions, firstUsableNode e.2.Nodes = none))) := by
  cases m with
  | none =>
    refine ⟨?_, ?_, ?_⟩
    · constructor
      · rintro ⟨c, hc⟩
        exact absurd hc (by simp [pickDERPNode, orderedDERPRegionCandidates])
      · rintro ⟨c, hc⟩
        exact absurd hc (by simp [pickDERPNodeSpec])
    · intro rid node h
      exact absurd h (by simp [pickDERPNodeSpec])
    · constructor
      · intro _
        exact Or.inl rfl
      · intro _
        exact ⟨"derp map has no regions", rfl⟩
  | some regions =>
    have hnd2 := hnd regions rfl
    by_cases hre : regions = []
    · subst hre
      refine ⟨?_, ?_, ?_⟩
      · constructor
        · rintro ⟨c, hc⟩
          exact absurd hc (by simp [pickDERPNode, orderedDERPRegionCandidates])
        · rintro ⟨c, hc⟩
          exact absurd hc
            (by simp [pickDERPNodeSpec, orderedRegionIDs, insertionSort])
      · intro rid node h
        exact absurd h (by simp [pickDERPNodeSpec, orderedRegionIDs, insertionSort])
      · constructor
        · intro _
          exact Or.inr ⟨[], rfl, Or.inl rfl⟩
        · intro _
          exact ⟨"derp map has no regions", rfl⟩
    · have hpoint : ∀ id : Int,
          (match regionLookup regions id with
           | none => none
           | some region =>
               match firstUsableNode region.Nodes with
               | none => none
               | some node => some (⟨id, node⟩ : derpRegionCandidate)) =
          ((regionLookup regions id).bind (fun region =>
              (pickDERPNodeSpec.specUsableNode region.Nodes).map
                (fun node => (id, node)))).map
            (fun p : Int × Node =>
              (⟨p.1, { p.2 with
                STUNPort := if p.2.STUNPort = 0 then 3478 else p.2.STUNPort }⟩ :
                derpRegionCandidate)) := by
        intro id
        cases hlook : regionLookup regions id with
        | none => simp
        | some region =>
          show (match firstUsableNode region.Nodes with
                | none => none
                | some node => some (⟨id, node⟩ : derpRegionCandidate)) = _
          rw [firstUsableNode_eq_spec region.Nodes]
          cases hsu : pickDERPNodeSpec.specUsableNode region.Nodes with
          | none => simp [hsu]
          | some n => simp [hsu]
      have hspec : pickDERPNodeSpec (some regions) pr =
          (orderedRegionIDs regions pr).findSome? (fun regionID =>
            (regionLookup regions regionID).bind (fun region =>
              (pickDERPNodeSpec.specUsableNode region.Nodes).map
                (fun node => (regionID, node)))) := rfl
      have hcomp : (orderedRegionIDs regions pr).filterMap (fun regionID =>
            match regionLookup regions regionID with
            | none => none
            | some region =>
                match firstUsableNode region.Nodes with
                | none => none
                | some node => some (⟨regionID, node⟩ : derpRegionCandidate)) =
          ((orderedRegionIDs regions pr).filterMap (fun regionID =>
            ((regionLookup regions regionID).bind (fun region =>
              (pickDERPNodeSpec.specUsableNode region.Nodes).map
                (fun node => (regionID, node)))).map
            (fun p : Int × Node =>
              (⟨p.1, { p.2 with
                STUNPort := if p.2.STUNPort = 0 then 3478 else p.2.STUNPort }⟩ :
                derpRegionCandidate)))) := by
        have hfun : (fun regionID : Int =>
            match regionLookup regions regionID with
            | none => none
            | some region =>
                match firstUsableNode region.Nodes with
                | none => none
                | some node => some (⟨regionID, node⟩ : derpRegionCandidate)) =
            (fun regionID : Int =>
              ((regionLookup regions regionID).bind (fun region =>
                (pickDERPNodeSpec.specUsableNode region.Nodes).map
                  (fun node => (regionID, node)))).map
              (fun p : Int × Node =>
                (⟨p.1, { p.2 with
                  STUNPort := if p.2.STUNPort = 0 then 3478 else p.2.STUNPort }⟩ :
                  derpRegionCandidate))) := funext hpoint
        rw [hfun]
      have hhead : ((orderedRegionIDs regions pr).filterMap (fun regionID =>
            match regionLookup regions regionID with
            | none => none
            | some region =>
                match firstUsableNode region.Nodes with
                | none => none
                | some node => some (⟨regionID, node⟩ : derpRegionCandidate))).head? =
          (pickDERPNodeSpec (some regions) pr).map
            (fun p : Int × Node =>
              (⟨p.1, { p.2 with
                STUNPort := if p.2.STUNPort = 0 then 3478 else p.2.STUNPort }⟩ :
                derpRegionCandidate)) := by
        rw [hcomp, head_filterMap_eq_findSome?, findSome?_comp_map, hspec]
      have hORC : orderedDERPRegionCandidates (some regions) pr =
          (if ((orderedRegionIDs regions pr).filterMap (fun regionID =>
            match regionLookup regions regionID with
            | none => none
            | some region =>
                match firstUsableNode region.Nodes with
                | none => none
                | some node => some (⟨regionID, node⟩ : derpRegionCandidate))) = []
          then .error "derp map contains no usable node"
          else .ok ((orderedRegionIDs regions pr).filterMap (fun regionID =>
            match regionLookup regions regionID with
            | none => none
            | some region =>
                match firstUsableNode region.Nodes with
                | none => none
                | some node => some (⟨regionID, node⟩ : derpRegionCandidate)))) := by
        show (if regions = []
            then (.error "derp map has no regions" : Except String (List derpRegionCandidate))
            else if ((orderedRegionIDs regions pr).filterMap (fun regionID =>
            match regionLookup regions regionID with
            | none => none
            | some region =>
                match firstUsableNode region.Nodes with
                | none => none
                | some node => some (⟨regionID, node⟩ : derpRegionCandidate))) = []
            then .error "derp map contains no usable node"
            else .ok ((orderedRegionIDs regions pr).filterMap (fun regionID =>
            match regionLookup regions regionID with
            | none => none
            | some region =>
                match firstUsableNode region.Nodes with
                | none => none
                | some node => some (⟨regionID, node⟩ : derpRegionCandidate)))) = _
        rw [if_neg hre]
      cases hfs : pickDERPNodeSpec (some regions) pr with
      | none =>
        have hnil : ((orderedRegionIDs regions pr).filterMap (fun regionID =>
            match regionLookup regions regionID with
            | none => none
            | some region =>
                match firstUsableNode region.Nodes with
                | none => none
                | some node => some (⟨regionID, node⟩ : derpRegionCandidate))) = [] := by
          rw [← List.head?_eq_none_iff, hhead, hfs]
          rfl
        have hPD : pickDERPNode (some regions) pr =
            .error "derp map contains no usable node" := by
          unfold pickDERPNode
          rw [hORC, if_pos hnil]
        have hallnone : ∀ id ∈ orderedRegionIDs regions pr,
            (match regionLookup regions id with
             | none => none
             | some region =>
                 match firstUsableNode region.Nodes with
                 | none => none
                 | some node => some (⟨id, node⟩ : derpRegionCandidate)) = none := by
          intro id hid
          exact List.filterMap_eq_nil.mp hnil id hid
        refine ⟨?_, ?_, ?_⟩
        · constructor
          · rintro ⟨c, hc⟩
            rw [hPD] at hc
            exact absurd hc (by simp)
          · rintro ⟨c, hc⟩
            exact absurd hc (by simp)
        · intro rid node h
          exact absurd h (by simp)
        · constructor
          · intro _
            refine Or.inr ⟨regions, rfl, Or.inr ?_⟩
            intro e he
            obtain ⟨k, r⟩ := e
            have hk : k ∈ orderedRegionIDs regions pr :=
              (mem_orderedRegionIDs regions pr k).mpr
                (List.mem_map.mpr ⟨(k, r), he, rfl⟩)
            have hlook : regionLookup regions k = some r :=
              regionLookup_of_mem_nodup hnd2 he
            have hcn := hallnone k hk
            rw [hlook] at hcn
            cases hfu : firstUsableNode r.Nodes with
            | none => rfl
            | some node =>
              simp [hfu] at hcn
          · intro _
            exact ⟨"derp map contains no usable node", hPD⟩
      | some p =>
        obtain ⟨rid, node⟩ := p
        have hhead2 : ((orderedRegionIDs regions pr).filterMap (fun regionID =>
            match regionLookup regions regionID with
            | none => none
            | some region =>
                match firstUsableNode region.Nodes with
                | none => none
                | some node => some (⟨regionID, node⟩ : derpRegionCandidate))).head? =
            some ⟨rid, { node with
              STUNPort := if node.STUNPort = 0 then 3478 else node.STUNPort }⟩ := by
          rw [hhead, hfs]
          rfl
        have hPD : pickDERPNode (some regions) pr =
            .ok (rid, { node with
              STUNPort := if node.STUNPort = 0 then 3478 else node.STUNPort }) := by
          unfold pickDERPNode
          rw [hORC]
          cases hcl : ((orderedRegionIDs regions pr).filterMap (fun regionID =>
              match regionLookup regions regionID with
              | none => none
              | some region =>
                  match firstUsableNode region.Nodes with
                  | none => none
                  | some node => some (⟨regionID, node⟩ : derpRegionCandidate))) with
          | nil =>
            rw [hcl] at hhead2
            exact absurd hhead2 (by simp)
          | cons c tail =>
            rw [hcl] at hhead2
            simp only [List.head?_cons, Option.some.injEq] at hhead2
            rw [if_neg (by simp)]
            rw [hhead2]
        refine ⟨?_, ?_, ?_⟩
        · constructor
          · intro _
            exact ⟨(rid, node), rfl⟩
          · intro _
            exact ⟨_, hPD⟩
        · intro rid2 node2 h
          injection h with h
          injection h with h1 h2
          rw [← h1, ← h2]
          exact hPD
        · constructor
          · rintro ⟨e, he⟩
            rw [hPD] at he
            exact absurd he (by simp)
          · rintro (h | ⟨regions2, hr2, h⟩)
            · exact absurd h (by simp)
            · injection hr2 with hr2
              subst hr2
              rcases h with h | h
              · exact absurd h hre
              · exfalso
                have hallnone : ∀ id ∈ orderedRegionIDs regions pr,
                    (match regionLookup regions id with
                     | none => none
                     | some region =>
                         match firstUsableNode region.Nodes with
                         | none => none
                         | some node => some (⟨id, node⟩ : derpRegionCandidate)) = none := by
                  intro id hid
                  cases hlook : regionLookup regions id with
                  | none => rfl
                  | some r =>
                    have hmem := regionLookup_mem hlook
                    have hfu := h (id, r) hmem
                    simp only at hfu
                    simp [hfu]
                have hnil : ((orderedRegionIDs regions pr).filterMap (fun regionID =>
                    match regionLookup regions regionID with
                    | none => none
                    | some region =>
                        match firstUsableNode region.Nodes with
                        | none => none
                        | some node => some (⟨regionID, node⟩ : derpRegionCandidate)))
                      = [] := List.filterMap_eq_nil.mpr hallnone
                rw [← List.head?_eq_none_iff] at hnil
                rw [hhead2] at hnil
                exact absurd hnil (by simp)

/-- C9 counterexample to the claim as stated: a map whose single node has
the non-empty hostname consisting of one space is, by the claim's reading
of usable (non-empty hostname), usable, so selection should succeed; the
code trims the hostname and fails with no usable node. -/
theorem C9_claim_counterexample :
    pickDERPNode (some [((1 : Int), ⟨1, [⟨[110], 1, [32], 0, 0, false⟩]⟩)]) 0 =
      .error "derp map contains no usable node" ∧
    ([32] : List Nat) ≠ [] := by
  constructor
  · rfl
  · decide

/-- Concrete instantiation of C9: a two-region map with preferred region 2;
the code picks region 2's node with the STUN port defaulted. -/
theorem C9_pick_derp_node_witness :
    pickDERPNode
        (some [((1 : Int), ⟨1, [⟨[110], 1, [104], 0, 0, false⟩]⟩),
               ((2 : Int), ⟨2, [⟨[109], 2, [105], 0, 443, false⟩]⟩)]) 2 =
      .ok (2, ⟨[109], 2, [105], 3478, 443, false⟩) := by
  have h := (C9_pick_derp_node
      (some [((1 : Int), ⟨1, [⟨[110], 1, [104], 0, 0, false⟩]⟩),
             ((2 : Int), ⟨2, [⟨[109], 2, [105], 0, 443, false⟩]⟩)]) 2
      (by
        intro regions hreg
        injection hreg with hreg
        rw [← hreg]
        decide)).2.1
    2 ⟨[109], 2, [105], 0, 443, false⟩ (by decide)
  simpa using h

end ReverseSSH
